import Mathlib

/-!
Verification of the Scramble word-placement game engine.

Shallow embedding of the TypeScript sources:
  src/src/types.ts           — data model
  src/src/data/board.ts      — 15×15 board and bonus layout
  src/src/data/tiles.ts      — tile bag creation, shuffle, draw
  src/src/data/scoring.ts    — placement validation, word extraction, scoring
  src/src/App.tsx            — turn controller (place/recall/submit/pass/exchange)
  the game-mode revision of App.tsx — free-play submit, blank-letter recall

JavaScript numbers holding tile points, scores and indices are embedded as
Nat (all values are small non-negative integers); `Math.random`-driven
shuffles are parameterised by the list of drawn indices.
-/

namespace Scramble

/-- Bonus square classification, from types.ts `BonusType`. The source value
'none' is rendered `noBonus` to avoid clashing with `Option.none`. -/
inductive BonusType where
  | noBonus
  | doubleLetter
  | tripleLetter
  | doubleWord
  | tripleWord
  | center
deriving DecidableEq

/-- A tile, from types.ts `Tile`. The source id string "tile-N" is embedded
as the injective counter N. -/
structure Tile where
  id : Nat
  letter : String
  points : Nat
  isBlank : Bool
deriving DecidableEq

instance : Inhabited Tile := ⟨⟨0, "", 0, false⟩⟩

/-- A board cell, from types.ts `BoardCell`. The optional source fields
`isNewlyPlaced` and `placedByPlayer` default to false / absent. -/
structure BoardCell where
  row : Nat
  col : Nat
  tile : Option Tile
  bonus : BonusType
  isNewlyPlaced : Bool := false
  placedByPlayer : Option Nat := none
deriving DecidableEq

def defaultCell : BoardCell :=
  { row := 0, col := 0, tile := none, bonus := .noBonus }

instance : Inhabited BoardCell := ⟨defaultCell⟩

/-- The board is the 15×15 row-major grid `BoardCell[][]`. -/
abbrev Board := List (List BoardCell)

/-- Reading `board[r][c]`; all source reads are in bounds, out-of-range
reads yield the empty default cell. -/
def cellAt (b : Board) (r c : Nat) : BoardCell :=
  (b.getD r []).getD c defaultCell

/-- Writing `board[r][c] = v` (after the per-mutation deep copy). -/
def setCell (b : Board) (r c : Nat) (v : BoardCell) : Board :=
  b.set r ((b.getD r []).set c v)

/-- Triple-word coordinates from board.ts `TRIPLE_WORD`. -/
def TRIPLE_WORD : List (Nat × Nat) :=
  [(0, 0), (0, 7), (0, 14), (7, 0), (7, 14), (14, 0), (14, 7), (14, 14)]

/-- Double-word coordinates from board.ts `DOUBLE_WORD`. -/
def DOUBLE_WORD : List (Nat × Nat) :=
  [(1, 1), (2, 2), (3, 3), (4, 4),
   (1, 13), (2, 12), (3, 11), (4, 10),
   (13, 1), (12, 2), (11, 3), (10, 4),
   (13, 13), (12, 12), (11, 11), (10, 10)]

/-- Triple-letter coordinates from board.ts `TRIPLE_LETTER`. -/
def TRIPLE_LETTER : List (Nat × Nat) :=
  [(1, 5), (1, 9),
   (5, 1), (5, 5), (5, 9), (5, 13),
   (9, 1), (9, 5), (9, 9), (9, 13),
   (13, 5), (13, 9)]

/-- Double-letter coordinates from board.ts `DOUBLE_LETTER`. -/
def DOUBLE_LETTER : List (Nat × Nat) :=
  [(0, 3), (0, 11),
   (2, 6), (2, 8),
   (3, 0), (3, 7), (3, 14),
   (6, 2), (6, 6), (6, 8), (6, 12),
   (7, 3), (7, 11),
   (8, 2), (8, 6), (8, 8), (8, 12),
   (11, 0), (11, 7), (11, 14),
   (12, 6), (12, 8),
   (14, 3), (14, 11)]

/-- Bonus classification of a coordinate, from board.ts `getBonusType`. -/
def getBonusType (row col : Nat) : BonusType :=
  if row = 7 ∧ col = 7 then .center
  else if TRIPLE_WORD.any (fun rc => rc.1 == row && rc.2 == col) then .tripleWord
  else if DOUBLE_WORD.any (fun rc => rc.1 == row && rc.2 == col) then .doubleWord
  else if TRIPLE_LETTER.any (fun rc => rc.1 == row && rc.2 == col) then .tripleLetter
  else if DOUBLE_LETTER.any (fun rc => rc.1 == row && rc.2 == col) then .doubleLetter
  else .noBonus

/-- The fresh board, from board.ts `createEmptyBoard`. -/
def createEmptyBoard : Board :=
  (List.range 15).map (fun row =>
    (List.range 15).map (fun col =>
      { row := row, col := col, tile := none, bonus := getBonusType row col }))

/-- A placed position `{row, col}` as passed to the scoring functions. -/
structure Pos where
  row : Nat
  col : Nat
deriving DecidableEq

instance : Inhabited Pos := ⟨⟨0, 0⟩⟩

/-- A word found on the board, from types.ts `WordInfo`. -/
structure WordInfo where
  word : String
  cells : List BoardCell
  score : Nat
  isValid : Bool
deriving DecidableEq

/-- Result of placement validation, from scoring.ts `PlacementResult`. -/
structure PlacementResult where
  isValid : Bool
  words : List WordInfo
  totalScore : Nat
  errors : List String
deriving DecidableEq

/-- Loop body of scoring.ts `calculateWordScore`: accumulates the letter
total and the word multiplier over the word's cells, skipping (never in
practice) cells without a tile. -/
def calcLoop (set : List Pos) : List BoardCell → Nat → Nat → Nat × Nat
  | [], wordScore, wordMultiplier => (wordScore, wordMultiplier)
  | cell :: rest, wordScore, wordMultiplier =>
    match cell.tile with
    | none => calcLoop set rest wordScore wordMultiplier
    | some t =>
      let isNewlyPlaced := set.contains ⟨cell.row, cell.col⟩
      let letterScore :=
        if isNewlyPlaced then
          match cell.bonus with
          | .doubleLetter => t.points * 2
          | .tripleLetter => t.points * 3
          | _ => t.points
        else t.points
      let wordMultiplier' :=
        if isNewlyPlaced then
          match cell.bonus with
          | .doubleWord => wordMultiplier * 2
          | .center => wordMultiplier * 2
          | .tripleWord => wordMultiplier * 3
          | _ => wordMultiplier
        else wordMultiplier
      calcLoop set rest (wordScore + letterScore) wordMultiplier'

/-- scoring.ts `calculateWordScore`: bonuses count only for newly placed
cells; the final score is the letter total times the word multiplier. -/
def calculateWordScore (cells : List BoardCell) (newlyPlacedSet : List Pos) : Nat :=
  let (wordScore, wordMultiplier) := calcLoop newlyPlacedSet cells 0 1
  wordScore * wordMultiplier

/-- The backward scan of scoring.ts `getWordAt`: starting at index `i`,
steps back while the preceding cell along the axis is occupied. -/
def scanBack (get : Nat → BoardCell) : Nat → Nat
  | 0 => 0
  | i + 1 => if (get i).tile.isSome then scanBack get i else i + 1

/-- The forward collection of scoring.ts `getWordAt`: collects consecutive
occupied cells from index `c` while inside the 15-wide board. The fuel is
always 15 at the call site. -/
def collectFwd (get : Nat → BoardCell) : Nat → Nat → List BoardCell
  | 0, _ => []
  | fuel + 1, c =>
    if c < 15 ∧ (get c).tile.isSome then get c :: collectFwd get fuel (c + 1)
    else []

/-- scoring.ts `getWordAt`: the maximal run of occupied cells through
(row, col) along the axis, as a scored word when at least 2 cells long. -/
def getWordAt (board : Board) (row col : Nat) (horizontal : Bool)
    (newlyPlacedSet : List Pos) : Option WordInfo :=
  let get : Nat → BoardCell :=
    if horizontal then fun c => cellAt board row c else fun r => cellAt board r col
  let start := scanBack get (if horizontal then col else row)
  let cells := collectFwd get 15 start
  if cells.length < 2 then none
  else
    let word := String.join (cells.map (fun c => ((c.tile.map Tile.letter).getD "")))
    let score := calculateWordScore cells newlyPlacedSet
    some { word := word, cells := cells, score := score, isValid := true }

/-- Insertion-ordered deduplication, the JS idiom `[...new Set(xs)]`. -/
def dedupFirst : List Nat → List Nat
  | [] => []
  | x :: xs => x :: (dedupFirst xs).filter (· ≠ x)

/-- The gap scan of scoring.ts `findWordsFromPlacement`: every cell from the
minimum to the maximum coordinate along the placement's axis is occupied. -/
def gapFree (board : Board) (rows cols : List Nat) (isHorizontal : Bool) : Bool :=
  if isHorizontal then
    let row := rows.headD 0
    let lo := (cols.min?).getD 0
    let hi := (cols.max?).getD 0
    (List.range' lo (hi + 1 - lo)).all (fun c => (cellAt board row c).tile.isSome)
  else
    let col := cols.headD 0
    let lo := (rows.min?).getD 0
    let hi := (rows.max?).getD 0
    (List.range' lo (hi + 1 - lo)).all (fun r => (cellAt board r col).tile.isSome)

/-- The connectivity scan of scoring.ts `findWordsFromPlacement`: some placed
position is orthogonally adjacent to an on-board tile that was not itself
just placed. Coordinates go through Int exactly as the source's row-1/col-1
arithmetic with its bounds guard. -/
def connectsToExisting (board : Board) (placedTiles : List Pos) : Bool :=
  placedTiles.any fun pos =>
    let adjacent : List (Int × Int) :=
      [((pos.row : Int) - 1, (pos.col : Int)),
       ((pos.row : Int) + 1, (pos.col : Int)),
       ((pos.row : Int), (pos.col : Int) - 1),
       ((pos.row : Int), (pos.col : Int) + 1)]
    adjacent.any fun rc =>
      if rc.1 < 0 ∨ rc.1 > 14 ∨ rc.2 < 0 ∨ rc.2 > 14 then false
      else
        let cell := cellAt board rc.1.toNat rc.2.toNat
        cell.tile.isSome &&
          !(placedTiles.any fun p => p.row == rc.1.toNat && p.col == rc.2.toNat)

/-- The word-accumulation loop of scoring.ts `findWordsFromPlacement`: the
perpendicular word at each placed tile, deduplicated by starting cell and
word string. -/
def accumPerpWords (board : Board) (placedTiles : List Pos) (isHorizontal : Bool)
    (init : List WordInfo) : List WordInfo :=
  placedTiles.foldl (fun ws pos =>
    match getWordAt board pos.row pos.col (!isHorizontal) placedTiles with
    | some perpWord =>
      if perpWord.cells.length > 1 then
        let isDuplicate := ws.any fun w =>
          (w.cells.headD defaultCell).row == (perpWord.cells.headD defaultCell).row &&
          (w.cells.headD defaultCell).col == (perpWord.cells.headD defaultCell).col &&
          w.word == perpWord.word
        if isDuplicate then ws else ws ++ [perpWord]
      else ws
    | none => ws) init

/-- scoring.ts `findWordsFromPlacement`, parameterised by the dictionary
collaborator `isValidWord`. -/
def findWordsFromPlacement (isValidWord : String → Bool) (board : Board)
    (placedTiles : List Pos) (isFirstMove : Bool) : PlacementResult :=
  if placedTiles.length = 0 then
    { isValid := false, words := [], totalScore := 0, errors := ["No tiles placed"] }
  else
    let rows := dedupFirst (placedTiles.map Pos.row)
    let cols := dedupFirst (placedTiles.map Pos.col)
    let isHorizontal : Bool := rows.length == 1
    let isVertical : Bool := cols.length == 1
    if !isHorizontal && !isVertical then
      { isValid := false, words := [], totalScore := 0,
        errors := ["Tiles must be placed in a single row or column"] }
    else if !(gapFree board rows cols isHorizontal) then
      { isValid := false, words := [], totalScore := 0,
        errors := ["Tiles must be placed without gaps"] }
    else if isFirstMove && !(placedTiles.any fun t => t.row == 7 && t.col == 7) then
      { isValid := false, words := [], totalScore := 0,
        errors := ["First word must go through the center square"] }
    else if !isFirstMove && !(connectsToExisting board placedTiles) then
      { isValid := false, words := [], totalScore := 0,
        errors := ["Word must connect to existing tiles"] }
    else
      let mainWord := getWordAt board (placedTiles.headD default).row
        (placedTiles.headD default).col isHorizontal placedTiles
      let words0 : List WordInfo :=
        match mainWord with
        | some w => if w.cells.length > 1 then [w] else []
        | none => []
      let words := accumPerpWords board placedTiles isHorizontal words0
      if words.length = 0 then
        { isValid := false, words := [], totalScore := 0,
          errors := ["Must form at least one word"] }
      else
        let isValid := words.all fun w => isValidWord w.word
        if !isValid then
          let wordList := String.intercalate ", " (words.map fun w => w.word.toUpper)
          { isValid := false, words := words, totalScore := 0,
            errors := ["Cannot form valid words with this placement: " ++ wordList] }
        else
          let totalScore := (words.map WordInfo.score).sum
          let finalScore := if placedTiles.length = 7 then totalScore + 50 else totalScore
          { isValid := true, words := words, totalScore := finalScore, errors := [] }

/-- scoring.ts `calculateTournamentScore`: the same computation with the
dictionary step removed (tournament mode lets invalid words through). -/
def calculateTournamentScore (board : Board) (placedTiles : List Pos)
    (isFirstMove : Bool) : PlacementResult :=
  if placedTiles.length = 0 then
    { isValid := false, words := [], totalScore := 0, errors := ["No tiles placed"] }
  else
    let rows := dedupFirst (placedTiles.map Pos.row)
    let cols := dedupFirst (placedTiles.map Pos.col)
    let isHorizontal : Bool := rows.length == 1
    let isVertical : Bool := cols.length == 1
    if !isHorizontal && !isVertical then
      { isValid := false, words := [], totalScore := 0,
        errors := ["Tiles must be placed in a single row or column"] }
    else if !(gapFree board rows cols isHorizontal) then
      { isValid := false, words := [], totalScore := 0,
        errors := ["Tiles must be placed without gaps"] }
    else if isFirstMove && !(placedTiles.any fun t => t.row == 7 && t.col == 7) then
      { isValid := false, words := [], totalScore := 0,
        errors := ["First word must go through the center square"] }
    else if !isFirstMove && !(connectsToExisting board placedTiles) then
      { isValid := false, words := [], totalScore := 0,
        errors := ["Word must connect to existing tiles"] }
    else
      let mainWord := getWordAt board (placedTiles.headD default).row
        (placedTiles.headD default).col isHorizontal placedTiles
      let words0 : List WordInfo :=
        match mainWord with
        | some w => if w.cells.length > 1 then [w] else []
        | none => []
      let words := accumPerpWords board placedTiles isHorizontal words0
      if words.length = 0 then
        { isValid := false, words := [], totalScore := 0,
          errors := ["Must form at least one word"] }
      else
        let totalScore := (words.map WordInfo.score).sum
        let finalScore := if placedTiles.length = 7 then totalScore + 50 else totalScore
        { isValid := true, words := words, totalScore := finalScore, errors := [] }

/-! ### Scoring decomposition (claim C4) -/

/-- Letter-bonus factor of a bonus square. -/
def letterBonusMult : BonusType → Nat
  | .doubleLetter => 2
  | .tripleLetter => 3
  | _ => 1

/-- Word-bonus factor of a bonus square. -/
def wordBonusMult : BonusType → Nat
  | .doubleWord => 2
  | .center => 2
  | .tripleWord => 3
  | _ => 1

/-- Per-letter score of one cell of a word: the raw point value, multiplied
by the letter bonus exactly when the cell was newly placed. -/
def letterContribution (set : List Pos) (cell : BoardCell) : Nat :=
  match cell.tile with
  | none => 0
  | some t =>
    if set.contains ⟨cell.row, cell.col⟩ then t.points * letterBonusMult cell.bonus
    else t.points

/-- Word-multiplier factor of one cell of a word: the word bonus when the
cell was newly placed, and 1 otherwise. -/
def wordMultContribution (set : List Pos) (cell : BoardCell) : Nat :=
  match cell.tile with
  | none => 1
  | some _ =>
    if set.contains ⟨cell.row, cell.col⟩ then wordBonusMult cell.bonus
    else 1

theorem calcLoop_eq (set : List Pos) :
    ∀ (cells : List BoardCell) (ws wm : Nat),
      calcLoop set cells ws wm =
        (ws + (cells.map (letterContribution set)).sum,
         wm * (cells.map (wordMultContribution set)).prod) := by
  intro cells
  induction cells with
  | nil => intro ws wm; simp [calcLoop]
  | cons cell rest ih =>
    intro ws wm
    match htile : cell.tile with
    | none =>
      simp [calcLoop, htile, ih, letterContribution, wordMultContribution]
    | some t =>
      simp only [calcLoop, htile, ih, List.map_cons, List.sum_cons, List.prod_cons]
      by_cases hnew : (⟨cell.row, cell.col⟩ : Pos) ∈ set
      case pos =>
        have hc : set.contains ⟨cell.row, cell.col⟩ = true := List.elem_iff.mpr hnew
        cases hb : cell.bonus <;>
          simp [letterContribution, wordMultContribution, htile, hb, hc, hnew,
            letterBonusMult, wordBonusMult, Prod.ext_iff] <;>
          first
          | exact ⟨trivial, trivial⟩
          | trivial
          | (constructor <;> ring)
          | ring
      case neg =>
        have hc : set.contains ⟨cell.row, cell.col⟩ = false := by
          simpa [List.elem_iff] using hnew
        cases hb : cell.bonus <;>
          simp [letterContribution, wordMultContribution, htile, hb, hc, hnew,
            letterBonusMult, wordBonusMult, Prod.ext_iff] <;>
          first
          | exact ⟨trivial, trivial⟩
          | trivial
          | (constructor <;> ring)
          | ring

/-- Claim C4: the word score computed by `calculateWordScore` is the sum of
the per-letter scores times the product of the word multipliers, where
letter and word bonuses fire only on cells in the newly-placed set and
every other cell contributes exactly its tile's raw point value. -/
theorem wordScore_decomposition (cells : List BoardCell) (set : List Pos) :
    calculateWordScore cells set =
      (cells.map (letterContribution set)).sum *
        (cells.map (wordMultContribution set)).prod := by
  unfold calculateWordScore
  rw [calcLoop_eq]
  simp

/-! ### Scenario B (claim C5) -/

/-- A 1-point tile with letter A and id `i`. -/
def tileA (i : Nat) : Tile := ⟨i, "A", 1, false⟩

/-- Board with a horizontal run of 7 one-point tiles on row 7, columns 4–10,
through the center cell, on an otherwise empty board. -/
def scenarioB_board : Board :=
  (List.range' 4 7).foldl (fun b c =>
    setCell b 7 c { cellAt b 7 c with tile := some (tileA c), isNewlyPlaced := true })
    createEmptyBoard

/-- The corresponding placed positions. -/
def scenarioB_placed : List Pos := (List.range' 4 7).map (fun c => ⟨7, c⟩)

/-- Same run restricted to 6 tiles (columns 5–10, still through center). -/
def scenarioB6_board : Board :=
  (List.range' 5 6).foldl (fun b c =>
    setCell b 7 c { cellAt b 7 c with tile := some (tileA c), isNewlyPlaced := true })
    createEmptyBoard

/-- The corresponding placed positions for the 6-tile run. -/
def scenarioB6_placed : List Pos := (List.range' 5 6).map (fun c => ⟨7, c⟩)

/-- Dictionary for scenario B containing the formed 7- and 6-letter words. -/
def scenarioB_dict : String → Bool := fun w => w == "AAAAAAA" || w == "AAAAAA"

/-- Claim C5: placing a horizontal run of exactly 7 newly placed one-point
tiles through the center cell on an otherwise empty board is a valid first
move scoring 64 = 7 × 2 (center word bonus) + 50, the 50-point bonus firing
exactly for 7 placed tiles: the analogous 6-tile run scores only 12. -/
theorem scenarioB_scores_64 :
    (findWordsFromPlacement scenarioB_dict scenarioB_board scenarioB_placed true).isValid
        = true ∧
    (findWordsFromPlacement scenarioB_dict scenarioB_board scenarioB_placed true).totalScore
        = 64 ∧
    (findWordsFromPlacement scenarioB_dict scenarioB6_board scenarioB6_placed true).totalScore
        = 12 := by
  refine ⟨by decide, by decide, by decide⟩

/-! ### Structural placement rules (claims C2, C3) -/

theorem mem_dedupFirst {x : Nat} : ∀ {l : List Nat}, x ∈ dedupFirst l ↔ x ∈ l := by
  intro l
  induction l with
  | nil => simp [dedupFirst]
  | cons a as ih =>
    by_cases hxa : x = a
    · subst hxa; simp [dedupFirst]
    · simp [dedupFirst, List.mem_filter, hxa, ih]

theorem dedupFirst_length_one : ∀ (l : List Nat),
    (dedupFirst l).length = 1 ↔ (l ≠ [] ∧ ∀ x ∈ l, x = l.headD 0) := by
  intro l
  match l with
  | [] => simp [dedupFirst]
  | a :: as =>
    have h1 : (dedupFirst (a :: as)).length = 1 ↔
        (dedupFirst as).filter (· ≠ a) = [] := by
      simp [dedupFirst, List.length_eq_zero]
    rw [h1, List.filter_eq_nil_iff]
    simp only [ne_eq, decide_not, Bool.not_eq_true', decide_eq_false_iff_not, not_not]
    constructor
    · intro h
      refine ⟨by simp, ?_⟩
      intro x hx
      rcases List.mem_cons.mp hx with h' | h'
      · simpa using h'
      · simpa using h x (mem_dedupFirst.mpr h')
    · intro ⟨_, h⟩ x hx
      simpa using h x (List.mem_cons_of_mem a (mem_dedupFirst.mp hx))

theorem foldl_min_filter_ne : ∀ (l : List Nat) (acc a : Nat), acc ≤ a →
    ((l.filter (· ≠ a)).foldl min acc) = l.foldl min acc := by
  intro l
  induction l with
  | nil => intros; rfl
  | cons x xs ih =>
    intro acc a hacc
    rw [List.filter_cons]
    by_cases hxa : x = a
    · subst hxa
      rw [if_neg (by simp), ih _ _ hacc]
      show List.foldl min acc xs = List.foldl min (min acc x) xs
      rw [Nat.min_eq_left hacc]
    · rw [if_pos (by simp [hxa])]
      show List.foldl min (min acc x) (xs.filter (· ≠ a)) = List.foldl min (min acc x) xs
      exact ih _ _ (le_trans (Nat.min_le_left acc x) hacc)

theorem foldl_max_filter_ne : ∀ (l : List Nat) (acc a : Nat), a ≤ acc →
    ((l.filter (· ≠ a)).foldl max acc) = l.foldl max acc := by
  intro l
  induction l with
  | nil => intros; rfl
  | cons x xs ih =>
    intro acc a hacc
    rw [List.filter_cons]
    by_cases hxa : x = a
    · subst hxa
      rw [if_neg (by simp), ih _ _ hacc]
      show List.foldl max acc xs = List.foldl max (max acc x) xs
      rw [Nat.max_eq_left hacc]
    · rw [if_pos (by simp [hxa])]
      show List.foldl max (max acc x) (xs.filter (· ≠ a)) = List.foldl max (max acc x) xs
      exact ih _ _ (le_trans hacc (Nat.le_max_left acc x))

theorem dedupFirst_foldl_min : ∀ (l : List Nat) (acc : Nat),
    (dedupFirst l).foldl min acc = l.foldl min acc := by
  intro l
  induction l with
  | nil => intros; rfl
  | cons x xs ih =>
    intro acc
    show ((dedupFirst xs).filter (· ≠ x)).foldl min (min acc x) = xs.foldl min (min acc x)
    rw [foldl_min_filter_ne _ _ _ (Nat.min_le_right acc x), ih]

theorem dedupFirst_foldl_max : ∀ (l : List Nat) (acc : Nat),
    (dedupFirst l).foldl max acc = l.foldl max acc := by
  intro l
  induction l with
  | nil => intros; rfl
  | cons x xs ih =>
    intro acc
    show ((dedupFirst xs).filter (· ≠ x)).foldl max (max acc x) = xs.foldl max (max acc x)
    rw [foldl_max_filter_ne _ _ _ (Nat.le_max_right acc x), ih]

theorem dedupFirst_min? : ∀ (l : List Nat), (dedupFirst l).min? = l.min? := by
  intro l
  match l with
  | [] => rfl
  | x :: xs =>
    show some (((dedupFirst xs).filter (· ≠ x)).foldl min x) = some (xs.foldl min x)
    rw [foldl_min_filter_ne _ _ _ (le_refl x), dedupFirst_foldl_min]

theorem dedupFirst_max? : ∀ (l : List Nat), (dedupFirst l).max? = l.max? := by
  intro l
  match l with
  | [] => rfl
  | x :: xs =>
    show some (((dedupFirst xs).filter (· ≠ x)).foldl max x) = some (xs.foldl max x)
    rw [foldl_max_filter_ne _ _ _ (le_refl x), dedupFirst_foldl_max]

/-- Rule 1 of spec §4.3: at least one tile placed this turn. -/
def ruleNonEmpty (placed : List Pos) : Prop := placed ≠ []

/-- All placed positions share one row (the first position's row). -/
def sameRowAll (placed : List Pos) : Prop :=
  ∀ p ∈ placed, p.row = (placed.headD default).row

/-- All placed positions share one column. -/
def sameColAll (placed : List Pos) : Prop :=
  ∀ p ∈ placed, p.col = (placed.headD default).col

/-- Rule 2: all placed positions share one row or one column. -/
def ruleSingleLine (placed : List Pos) : Prop := sameRowAll placed ∨ sameColAll placed

instance (placed : List Pos) : Decidable (sameRowAll placed) := by
  unfold sameRowAll; infer_instance

instance (placed : List Pos) : Decidable (sameColAll placed) := by
  unfold sameColAll; infer_instance

instance (placed : List Pos) : Decidable (ruleSingleLine placed) := by
  unfold ruleSingleLine; infer_instance

/-- Minimum of a list of coordinates. -/
def minOf (l : List Nat) : Nat := (l.min?).getD 0

/-- Maximum of a list of coordinates. -/
def maxOf (l : List Nat) : Nat := (l.max?).getD 0

/-- Rule 3: every cell between the minimum and maximum coordinate along the
placement's axis holds a tile. -/
def ruleNoGaps (b : Board) (placed : List Pos) : Prop :=
  if sameRowAll placed then
    ∀ c ≤ maxOf (placed.map Pos.col), minOf (placed.map Pos.col) ≤ c →
      (cellAt b (placed.headD default).row c).tile.isSome = true
  else
    ∀ r ≤ maxOf (placed.map Pos.row), minOf (placed.map Pos.row) ≤ r →
      (cellAt b r (placed.headD default).col).tile.isSome = true

/-- Rule 4: on the first move, some placed position is the center (7,7). -/
def ruleFirstMoveCenter (placed : List Pos) : Prop :=
  ∃ p ∈ placed, p.row = 7 ∧ p.col = 7

instance (placed : List Pos) : Decidable (ruleFirstMoveCenter placed) := by
  unfold ruleFirstMoveCenter; infer_instance

/-- Rule 5: some placed position is orthogonally adjacent to a pre-existing
(not newly placed) tile. -/
def ruleConnected (b : Board) (placed : List Pos) : Prop :=
  connectsToExisting b placed = true

theorem headD_map_row (placed : List Pos) (h : placed ≠ []) :
    (placed.map Pos.row).headD 0 = (placed.headD default).row := by
  cases placed with
  | nil => exact absurd rfl h
  | cons p ps => rfl

theorem headD_map_col (placed : List Pos) (h : placed ≠ []) :
    (placed.map Pos.col).headD 0 = (placed.headD default).col := by
  cases placed with
  | nil => exact absurd rfl h
  | cons p ps => rfl

theorem dedupFirst_headD (l : List Nat) : (dedupFirst l).headD 0 = l.headD 0 := by
  cases l <;> rfl

theorem isHorizontal_iff (placed : List Pos) (h : placed ≠ []) :
    (((dedupFirst (placed.map Pos.row)).length == 1) = true) ↔ sameRowAll placed := by
  rw [beq_iff_eq, dedupFirst_length_one]
  constructor
  · intro ⟨_, hall⟩ p hp
    have := hall p.row (List.mem_map_of_mem Pos.row hp)
    rwa [headD_map_row placed h] at this
  · intro hall
    refine ⟨by simpa using h, ?_⟩
    intro x hx
    obtain ⟨p, hp, rfl⟩ := List.mem_map.mp hx
    rw [headD_map_row placed h]
    exact hall p hp

theorem isVertical_iff (placed : List Pos) (h : placed ≠ []) :
    (((dedupFirst (placed.map Pos.col)).length == 1) = true) ↔ sameColAll placed := by
  rw [beq_iff_eq, dedupFirst_length_one]
  constructor
  · intro ⟨_, hall⟩ p hp
    have := hall p.col (List.mem_map_of_mem Pos.col hp)
    rwa [headD_map_col placed h] at this
  · intro hall
    refine ⟨by simpa using h, ?_⟩
    intro x hx
    obtain ⟨p, hp, rfl⟩ := List.mem_map.mp hx
    rw [headD_map_col placed h]
    exact hall p hp

theorem range'_all_iff (lo hi : Nat) (f : Nat → Bool) :
    ((List.range' lo (hi + 1 - lo)).all f = true) ↔
      (∀ c ≤ hi, lo ≤ c → f c = true) := by
  rw [List.all_eq_true]
  constructor
  · intro h c hc1 hc2
    exact h c (List.mem_range'_1.mpr ⟨hc2, by omega⟩)
  · intro h c hc
    have := List.mem_range'_1.mp hc
    exact h c (by omega) (by omega)

theorem gapFree_iff (b : Board) (placed : List Pos) (h : placed ≠ []) :
    (gapFree b (dedupFirst (placed.map Pos.row)) (dedupFirst (placed.map Pos.col))
        ((dedupFirst (placed.map Pos.row)).length == 1) = true) ↔
      ruleNoGaps b placed := by
  by_cases hsr : sameRowAll placed
  · have hH : ((dedupFirst (placed.map Pos.row)).length == 1) = true :=
      (isHorizontal_iff placed h).mpr hsr
    rw [hH]
    unfold gapFree ruleNoGaps
    rw [if_pos rfl, if_pos hsr, dedupFirst_headD, headD_map_row placed h]
    unfold minOf maxOf
    rw [dedupFirst_min?, dedupFirst_max?]
    rw [range'_all_iff]
  · have hH : ((dedupFirst (placed.map Pos.row)).length == 1) = false := by
      rw [Bool.eq_false_iff]
      intro hc
      exact hsr ((isHorizontal_iff placed h).mp hc)
    rw [hH]
    unfold gapFree ruleNoGaps
    rw [if_neg (by simp), if_neg hsr, dedupFirst_headD, headD_map_col placed h]
    unfold minOf maxOf
    rw [dedupFirst_min?, dedupFirst_max?]
    rw [range'_all_iff]

theorem touchesCenter_iff (placed : List Pos) :
    ((placed.any fun t => t.row == 7 && t.col == 7) = true) ↔
      ruleFirstMoveCenter placed := by
  unfold ruleFirstMoveCenter
  rw [List.any_eq_true]
  constructor
  · intro ⟨p, hp, hc⟩
    exact ⟨p, hp, by simpa using hc⟩
  · intro ⟨p, hp, hc⟩
    exact ⟨p, hp, by simp [hc.1, hc.2]⟩

/-- Claim C2: the placement validator evaluates the structural rules in the
order non-empty, single-line, no-gaps, first-move-through-center,
connectivity, and reports as the (sole) error the first class that fails. -/
theorem validator_error_order (dict : String → Bool) (b : Board)
    (placed : List Pos) (first : Bool) :
    (placed = [] →
      (findWordsFromPlacement dict b placed first).errors = ["No tiles placed"]) ∧
    (placed ≠ [] → ¬ ruleSingleLine placed →
      (findWordsFromPlacement dict b placed first).errors =
        ["Tiles must be placed in a single row or column"]) ∧
    (placed ≠ [] → ruleSingleLine placed → ¬ ruleNoGaps b placed →
      (findWordsFromPlacement dict b placed first).errors =
        ["Tiles must be placed without gaps"]) ∧
    (placed ≠ [] → ruleSingleLine placed → ruleNoGaps b placed →
      first = true → ¬ ruleFirstMoveCenter placed →
      (findWordsFromPlacement dict b placed first).errors =
        ["First word must go through the center square"]) ∧
    (placed ≠ [] → ruleSingleLine placed → ruleNoGaps b placed →
      first = false → ¬ ruleConnected b placed →
      (findWordsFromPlacement dict b placed first).errors =
        ["Word must connect to existing tiles"]) := by
  refine ⟨?_, ?_, ?_, ?_, ?_⟩
  · intro h
    subst h
    rfl
  · intro hne hnsl
    have hlen : ¬ (placed.length = 0) := by simpa [List.length_eq_zero] using hne
    have hH : ((dedupFirst (placed.map Pos.row)).length == 1) = false := by
      rw [Bool.eq_false_iff]
      exact fun hc => hnsl (Or.inl ((isHorizontal_iff placed hne).mp hc))
    have hV : ((dedupFirst (placed.map Pos.col)).length == 1) = false := by
      rw [Bool.eq_false_iff]
      exact fun hc => hnsl (Or.inr ((isVertical_iff placed hne).mp hc))
    simp only [findWordsFromPlacement, if_neg hlen, hH, hV, Bool.not_false,
      Bool.and_self, if_true]
  · intro hne hsl hng
    have hlen : ¬ (placed.length = 0) := by simpa [List.length_eq_zero] using hne
    have h2 : (!((dedupFirst (placed.map Pos.row)).length == 1) &&
        !((dedupFirst (placed.map Pos.col)).length == 1)) = false := by
      rcases hsl with hsr | hsc
      · rw [(isHorizontal_iff placed hne).mpr hsr]; simp
      · rw [(isVertical_iff placed hne).mpr hsc]; simp
    have h3 : gapFree b (dedupFirst (placed.map Pos.row))
        (dedupFirst (placed.map Pos.col))
        ((dedupFirst (placed.map Pos.row)).length == 1) = false := by
      rw [Bool.eq_false_iff]
      exact fun hc => hng ((gapFree_iff b placed hne).mp hc)
    simp only [findWordsFromPlacement, if_neg hlen, h2, h3, Bool.not_false,
      Bool.false_eq_true, if_false, if_true]
  · intro hne hsl hg hf hnc
    subst hf
    have hlen : ¬ (placed.length = 0) := by simpa [List.length_eq_zero] using hne
    have h2 : (!((dedupFirst (placed.map Pos.row)).length == 1) &&
        !((dedupFirst (placed.map Pos.col)).length == 1)) = false := by
      rcases hsl with hsr | hsc
      · rw [(isHorizontal_iff placed hne).mpr hsr]; simp
      · rw [(isVertical_iff placed hne).mpr hsc]; simp
    have h3 : gapFree b (dedupFirst (placed.map Pos.row))
        (dedupFirst (placed.map Pos.col))
        ((dedupFirst (placed.map Pos.row)).length == 1) = true :=
      (gapFree_iff b placed hne).mpr hg
    have h4 : (placed.any fun t => t.row == 7 && t.col == 7) = false := by
      rw [Bool.eq_false_iff]
      exact fun hc => hnc ((touchesCenter_iff placed).mp hc)
    simp only [findWordsFromPlacement, if_neg hlen, h2, h3, h4, Bool.not_false,
      Bool.not_true, Bool.false_eq_true, if_false, Bool.true_and, if_true]
  · intro hne hsl hg hf hnc
    subst hf
    have hlen : ¬ (placed.length = 0) := by simpa [List.length_eq_zero] using hne
    have h2 : (!((dedupFirst (placed.map Pos.row)).length == 1) &&
        !((dedupFirst (placed.map Pos.col)).length == 1)) = false := by
      rcases hsl with hsr | hsc
      · rw [(isHorizontal_iff placed hne).mpr hsr]; simp
      · rw [(isVertical_iff placed hne).mpr hsc]; simp
    have h3 : gapFree b (dedupFirst (placed.map Pos.row))
        (dedupFirst (placed.map Pos.col))
        ((dedupFirst (placed.map Pos.row)).length == 1) = true :=
      (gapFree_iff b placed hne).mpr hg
    have h5 : connectsToExisting b placed = false := by
      rw [Bool.eq_false_iff]
      exact fun hc => hnc hc
    simp only [findWordsFromPlacement, if_neg hlen, h2, h3, h5, Bool.not_false,
      Bool.not_true, Bool.false_eq_true, Bool.false_and, if_false, Bool.true_and,
      if_true]

/-! ### Error list size (claim C3) -/

/-- Board holding two diagonally placed tiles at (0,0) and (1,1). -/
def diagBoard : Board :=
  setCell
    (setCell createEmptyBoard 0 0
      { cellAt createEmptyBoard 0 0 with
        tile := some ⟨0, "C", 3, false⟩, isNewlyPlaced := true })
    1 1
    { cellAt createEmptyBoard 1 1 with
      tile := some ⟨1, "A", 1, false⟩, isNewlyPlaced := true }

/-- The corresponding placed positions. -/
def diagPlaced : List Pos := [⟨0, 0⟩, ⟨1, 1⟩]

/-- Claim C3 counterexample: the diagonal first-move placement at (0,0),(1,1)
violates both the single-line rule and the first-move-through-center rule,
yet the validator's errors list has exactly one entry — not more than one as
the claim requires for a placement violating several rules. -/
theorem multi_violation_single_error :
    (findWordsFromPlacement (fun _ => true) diagBoard diagPlaced true).isValid = false ∧
    ¬ ruleSingleLine diagPlaced ∧
    ¬ ruleFirstMoveCenter diagPlaced ∧
    (findWordsFromPlacement (fun _ => true) diagBoard diagPlaced true).errors.length
      = 1 := by
  refine ⟨by decide, by decide, by decide, by decide⟩

/-- Claim C3 amended: for every invalid placement the validator reports
exactly one error — the message of the first rule class that failed — and
never computes the remaining violations. -/
theorem invalid_has_single_error (dict : String → Bool) (b : Board)
    (placed : List Pos) (first : Bool)
    (h : (findWordsFromPlacement dict b placed first).isValid = false) :
    (findWordsFromPlacement dict b placed first).errors.length = 1 := by
  by_cases c1 : placed.length = 0
  · unfold findWordsFromPlacement
    rw [if_pos c1]
    rfl
  cases c2 : (!((dedupFirst (placed.map Pos.row)).length == 1) &&
      !((dedupFirst (placed.map Pos.col)).length == 1)) with
  | true =>
    unfold findWordsFromPlacement
    simp only [if_neg c1, c2, if_true]
    rfl
  | false =>
  cases c3 : gapFree b (dedupFirst (placed.map Pos.row))
      (dedupFirst (placed.map Pos.col))
      ((dedupFirst (placed.map Pos.row)).length == 1) with
  | false =>
    unfold findWordsFromPlacement
    simp only [if_neg c1, c2, c3, Bool.false_eq_true, if_false, Bool.not_false,
      if_true]
    rfl
  | true =>
  cases c4 : (first && !(placed.any fun t => t.row == 7 && t.col == 7)) with
  | true =>
    unfold findWordsFromPlacement
    simp only [if_neg c1, c2, c3, c4, Bool.false_eq_true, if_false, Bool.not_true,
      Bool.not_false, if_true]
    rfl
  | false =>
  cases c5 : (!first && !(connectsToExisting b placed)) with
  | true =>
    unfold findWordsFromPlacement
    simp only [if_neg c1, c2, c3, c4, c5, Bool.false_eq_true, if_false,
      Bool.not_true, Bool.not_false, if_true]
    rfl
  | false =>
    unfold findWordsFromPlacement at h ⊢
    simp only [if_neg c1, c2, c3, c4, c5, Bool.false_eq_true, if_false,
      Bool.not_true, Bool.not_false, if_true] at h ⊢
    split at h
    next hw =>
      rw [if_pos hw]
      rfl
    next hw =>
      rw [if_neg hw]
      split at h
      next hv =>
        rw [if_pos hv]
        rfl
      next hv =>
        exact absurd h (by simp)

/-! ### Tournament scoring refinement (claim C10) -/

/-- Claim C10: whenever every word formed by a placement passes the
dictionary check — in particular on every structurally invalid or wordless
placement, where no words are formed at all — `findWordsFromPlacement` and
`calculateTournamentScore` return identical results; the two computations
differ only in the dictionary validation step. -/
theorem tournament_refines (dict : String → Bool) (b : Board) (placed : List Pos)
    (first : Bool)
    (h : ∀ w ∈ (calculateTournamentScore b placed first).words, dict w.word = true) :
    findWordsFromPlacement dict b placed first = calculateTournamentScore b placed first := by
  by_cases c1 : placed.length = 0
  · unfold findWordsFromPlacement calculateTournamentScore
    rw [if_pos c1, if_pos c1]
  cases c2 : (!((dedupFirst (placed.map Pos.row)).length == 1) &&
      !((dedupFirst (placed.map Pos.col)).length == 1)) with
  | true =>
    unfold findWordsFromPlacement calculateTournamentScore
    simp only [if_neg c1, c2, if_true]
  | false =>
  cases c3 : gapFree b (dedupFirst (placed.map Pos.row))
      (dedupFirst (placed.map Pos.col))
      ((dedupFirst (placed.map Pos.row)).length == 1) with
  | false =>
    unfold findWordsFromPlacement calculateTournamentScore
    simp only [if_neg c1, c2, c3, Bool.false_eq_true, if_false, Bool.not_false,
      if_true]
  | true =>
  cases c4 : (first && !(placed.any fun t => t.row == 7 && t.col == 7)) with
  | true =>
    unfold findWordsFromPlacement calculateTournamentScore
    simp only [if_neg c1, c2, c3, c4, Bool.false_eq_true, if_false, Bool.not_true,
      Bool.not_false, if_true]
  | false =>
  cases c5 : (!first && !(connectsToExisting b placed)) with
  | true =>
    unfold findWordsFromPlacement calculateTournamentScore
    simp only [if_neg c1, c2, c3, c4, c5, Bool.false_eq_true, if_false,
      Bool.not_true, Bool.not_false, if_true]
  | false =>
    unfold calculateTournamentScore at h
    unfold findWordsFromPlacement calculateTournamentScore
    simp only [if_neg c1, c2, c3, c4, c5, Bool.false_eq_true, if_false,
      Bool.not_true, Bool.not_false, if_true] at h ⊢
    split at h
    next hw =>
      rw [if_pos hw, if_pos hw]
    next hw =>
      rw [if_neg hw, if_neg hw]
      have hall : (accumPerpWords b placed
          ((dedupFirst (placed.map Pos.row)).length == 1)
          (match getWordAt b (placed.headD default).row (placed.headD default).col
              ((dedupFirst (placed.map Pos.row)).length == 1) placed with
            | some w => if w.cells.length > 1 then [w] else []
            | none => [])).all (fun w => dict w.word) = true := by
        rw [List.all_eq_true]
        intro w hw'
        exact h w (by simpa using hw')
      rw [hall]
      simp

/-- Witness for the validator rule-order theorem: the diagonal placement
fails the single-line rule and that is the error reported. -/
theorem validator_error_order_witness :
    (findWordsFromPlacement (fun _ => true) diagBoard diagPlaced true).errors =
      ["Tiles must be placed in a single row or column"] :=
  (validator_error_order (fun _ => true) diagBoard diagPlaced true).2.1
    (by decide) (by decide)

/-- Witness for the single-error theorem at the diagonal placement. -/
theorem invalid_has_single_error_witness :
    (findWordsFromPlacement (fun _ => true) diagBoard diagPlaced true).errors.length
      = 1 :=
  invalid_has_single_error (fun _ => true) diagBoard diagPlaced true (by decide)

/-- Witness for the tournament refinement theorem: on the dictionary-valid
scenario-B board the two scoring functions agree. -/
theorem tournament_refines_witness :
    findWordsFromPlacement scenarioB_dict scenarioB_board scenarioB_placed true =
      calculateTournamentScore scenarioB_board scenarioB_placed true :=
  tournament_refines scenarioB_dict scenarioB_board scenarioB_placed true (by decide)

/-! ### Turn controller state and operations (App.tsx) -/

/-- A player, from types.ts `Player`. -/
structure Player where
  id : Nat
  name : String
  score : Nat
  rack : List Tile
deriving DecidableEq

/-- A tile placed in the in-progress turn, from types.ts `PlacedTile`. -/
structure PlacedTile where
  row : Nat
  col : Nat
  tile : Tile
deriving DecidableEq

/-- The canonical game state, from types.ts `GameState` (the shape used by
App.tsx, without the tournament-only fields). -/
structure GameState where
  board : Board
  players : Player × Player
  currentPlayerIndex : Nat
  tileBag : List Tile
  turnNumber : Nat
  placedThisTurn : List PlacedTile
  isFirstMove : Bool
  gameOver : Bool
  winner : Option Nat
deriving DecidableEq

/-- Reading `players[i]` (index 0 or 1). -/
def getPlayer (s : GameState) (i : Nat) : Player :=
  if i = 0 then s.players.1 else s.players.2

/-- Writing `players[i] = p`. -/
def setPlayer (ps : Player × Player) (i : Nat) (p : Player) : Player × Player :=
  if i = 0 then (p, ps.2) else (ps.1, p)

/-- tiles.ts `drawTiles`: first `count` tiles and the remainder. -/
def drawTiles (bag : List Tile) (count : Nat) : List Tile × List Tile :=
  (bag.take count, bag.drop count)

/-- One Fisher–Yates swap `[a[i], a[j]] = [a[j], a[i]]`. The indices drawn by
the source are always in range; out-of-range indices leave the list as is. -/
def swapList (l : List Tile) (i j : Nat) : List Tile :=
  if h : i < l.length ∧ j < l.length then
    (l.set i (l.get ⟨j, h.2⟩)).set j (l.get ⟨i, h.1⟩)
  else l

/-- The downward loop `for (i = n-1; i > 0; i--)` of the Fisher–Yates
shuffle in tiles.ts `shuffleBag` and App.tsx `handleConfirmExchange`; `js`
lists the successive draws `Math.floor(Math.random() * (i + 1))`. -/
def fyLoop : List Tile → List Nat → Nat → List Tile
  | l, _, 0 => l
  | l, [], _ + 1 => l
  | l, j :: rest, i + 1 => fyLoop (swapList l (i + 1) j) rest i

/-- tiles.ts `shuffleBag` with the random draws made explicit. -/
def shuffleBag (js : List Nat) (l : List Tile) : List Tile :=
  fyLoop l js (l.length - 1)

/-- A tile-distribution record, from types.ts `TileData`. -/
structure TileData where
  letter : String
  points : Nat
  count : Nat
  isBlank : Bool := false
deriving DecidableEq

/-- The `count` copies produced for one distribution record, with the
running id counter. -/
def makeCopies (d : TileData) (startId : Nat) : List Tile :=
  (List.range d.count).map (fun i => ⟨startId + i, d.letter, d.points, d.isBlank⟩)

/-- The expansion loop of tiles.ts `createTileBag`. -/
def expandDist : List TileData → Nat → List Tile
  | [], _ => []
  | d :: rest, nextId => makeCopies d nextId ++ expandDist rest (nextId + d.count)

/-- tiles.ts `createTileBag`: expand the distribution then shuffle. -/
def createTileBag (dist : List TileData) (js : List Nat) : List Tile :=
  shuffleBag js (expandDist dist 0)

/-- App.tsx `initializeGame`: shuffle a fresh bag and deal 7 tiles to each
player. -/
def initializeGame (dist : List TileData) (js : List Nat) (n1 n2 : String) :
    GameState :=
  let tileBag := createTileBag dist js
  let (player1Tiles, bag1) := drawTiles tileBag 7
  let (player2Tiles, finalBag) := drawTiles bag1 7
  { board := createEmptyBoard,
    players := (⟨1, if n1 = "" then "Player 1" else n1, 0, player1Tiles⟩,
                ⟨2, if n2 = "" then "Player 2" else n2, 0, player2Tiles⟩),
    currentPlayerIndex := 0,
    tileBag := finalBag,
    turnNumber := 1,
    placedThisTurn := [],
    isFirstMove := true,
    gameOver := false,
    winner := none }

/-- App.tsx `handleDropTile`, dragging a tile from the rack onto the board
(`dragSourceCell = null`); dropping on an occupied cell is a no-op. -/
def placeFromRack (s : GameState) (t : Tile) (row col : Nat) : GameState :=
  if (cellAt s.board row col).tile.isSome then s
  else
    let newBoard := setCell s.board row col
      { cellAt s.board row col with tile := some t, isNewlyPlaced := true }
    let p := getPlayer s s.currentPlayerIndex
    let p' := { p with rack := p.rack.filter (fun x => x.id ≠ t.id) }
    { s with
      board := newBoard,
      players := setPlayer s.players s.currentPlayerIndex p',
      placedThisTurn := s.placedThisTurn ++ [⟨row, col, t⟩] }

/-- The board-clearing loop of App.tsx `handleRecallTiles`. -/
def clearPlacedCells (board : Board) (placed : List PlacedTile) : Board :=
  placed.foldl (fun b p =>
    setCell b p.row p.col
      { cellAt b p.row p.col with tile := none, isNewlyPlaced := false }) board

/-- App.tsx `handleRecallTiles`: clear the placed cells and return the
placed tiles to the current player's rack. -/
def recallTiles (s : GameState) : GameState :=
  let newBoard := clearPlacedCells s.board s.placedThisTurn
  let tilesReturned := s.placedThisTurn.map PlacedTile.tile
  let p := getPlayer s s.currentPlayerIndex
  let p' := { p with rack := p.rack ++ tilesReturned }
  { s with
    board := newBoard,
    players := setPlayer s.players s.currentPlayerIndex p',
    placedThisTurn := [] }

/-- The flag-clearing board copy at the top of the accepted-play branch of
App.tsx `handleSubmitWord`. -/
def clearNewlyPlacedFlags (board : Board) (playerIdx : Nat) : Board :=
  board.map (fun r => r.map (fun c =>
    { c with
      isNewlyPlaced := false,
      placedByPlayer := if c.isNewlyPlaced then some playerIdx
                        else c.placedByPlayer }))

/-- The accepted-play state update of App.tsx `handleSubmitWord` (the
`setGameState` body run once validation succeeded with `result.totalScore =
score`): apply the score, draw replacements, check end of game, advance the
turn. -/
def submitAccept (s : GameState) (score : Nat) : GameState :=
  let newBoard := clearNewlyPlacedFlags s.board s.currentPlayerIndex
  let p := getPlayer s s.currentPlayerIndex
  let tilesToDraw := min s.placedThisTurn.length s.tileBag.length
  let (drawn, remaining) := drawTiles s.tileBag tilesToDraw
  let p' := { p with score := p.score + score, rack := p.rack ++ drawn }
  let newPlayers := setPlayer s.players s.currentPlayerIndex p'
  let isGameOver := p'.rack.length == 0 && remaining.length == 0
  let winner : Option Nat :=
    if isGameOver then
      (if newPlayers.1.score ≥ newPlayers.2.score then some 0 else some 1)
    else none
  { s with
    board := newBoard,
    players := newPlayers,
    currentPlayerIndex := if s.currentPlayerIndex = 0 then 1 else 0,
    tileBag := remaining,
    turnNumber := s.turnNumber + 1,
    placedThisTurn := [],
    isFirstMove := false,
    gameOver := isGameOver,
    winner := winner }

/-- App.tsx `handlePass`: the turn-advance update (`handleRecallTiles` runs
as its own preceding state update). -/
def passTurn (s : GameState) : GameState :=
  { s with
    currentPlayerIndex := if s.currentPlayerIndex = 0 then 1 else 0,
    turnNumber := s.turnNumber + 1 }

/-- App.tsx `handleConfirmExchange`: guard on the selection size and the bag,
then swap the selected tiles with fresh draws and reshuffle the bag. Returns
the new state and the user-facing message. -/
def confirmExchange (selected : List Nat) (js : List Nat) (s : GameState) :
    GameState × Option String :=
  if selected.length = 0 then (s, none)
  else if s.tileBag.length < selected.length then
    (s, some "Not enough tiles in the bag")
  else
    let currentPlayer := getPlayer s s.currentPlayerIndex
    let tilesToExchange := currentPlayer.rack.filter (fun t => selected.contains t.id)
    let tilesToKeep := currentPlayer.rack.filter (fun t => !(selected.contains t.id))
    let (drawn, remaining) := drawTiles s.tileBag tilesToExchange.length
    let newBag := shuffleBag js (remaining ++ tilesToExchange)
    let newPlayers := setPlayer s.players s.currentPlayerIndex
      { currentPlayer with rack := tilesToKeep ++ drawn }
    ({ s with
       players := newPlayers,
       tileBag := newBag,
       currentPlayerIndex := if s.currentPlayerIndex = 0 then 1 else 0,
       turnNumber := s.turnNumber + 1 },
     some ("Exchanged " ++ toString selected.length ++ " tile(s)"))

/-! ### End-of-game condition (claim C7) -/

/-- Claim C7: after an accepted submit with replacement draw, the game is
over exactly when the player who just moved (the pre-move current player)
has an empty rack and the bag is empty; in that case the winner is the
player with the higher cumulative score, with ties going to player 0; when
the game is not over no winner is set. -/
theorem submit_end_of_game (s : GameState) (score : Nat) :
    ((submitAccept s score).gameOver = true ↔
      ((getPlayer (submitAccept s score) s.currentPlayerIndex).rack = [] ∧
        (submitAccept s score).tileBag = [])) ∧
    ((submitAccept s score).gameOver = true →
      ((submitAccept s score).players.1.score > (submitAccept s score).players.2.score →
        (submitAccept s score).winner = some 0) ∧
      ((submitAccept s score).players.2.score > (submitAccept s score).players.1.score →
        (submitAccept s score).winner = some 1) ∧
      ((submitAccept s score).players.1.score = (submitAccept s score).players.2.score →
        (submitAccept s score).winner = some 0)) ∧
    ((submitAccept s score).gameOver = false → (submitAccept s score).winner = none) := by
  unfold submitAccept getPlayer setPlayer drawTiles
  by_cases hi : s.currentPlayerIndex = 0
  · simp only [hi, if_true, if_false, ite_true, ite_false]
    refine ⟨?_, ?_, ?_⟩
    · simp [List.length_eq_zero, Bool.and_eq_true]
      intros; omega
    · intro hgo
      refine ⟨?_, ?_, ?_⟩ <;> intro hcmp <;> rw [if_pos hgo]
      · rw [if_pos (by omega)]
      · rw [if_neg (by omega)]
      · rw [if_pos (by omega)]
    · intro hgo
      rw [if_neg (by intro hc; rw [hgo] at hc; exact absurd hc (by simp))]
  · simp only [hi, if_true, if_false, ite_true, ite_false]
    refine ⟨?_, ?_, ?_⟩
    · simp [List.length_eq_zero, Bool.and_eq_true]
      intros; omega
    · intro hgo
      refine ⟨?_, ?_, ?_⟩ <;> intro hcmp <;> rw [if_pos hgo]
      · rw [if_pos (by omega)]
      · rw [if_neg (by omega)]
      · rw [if_pos (by omega)]
    · intro hgo
      rw [if_neg (by intro hc; rw [hgo] at hc; exact absurd hc (by simp))]

/-- A tiny end-of-game position: both racks and the bag are empty, scores
tied before the move. -/
def gameStateW : GameState :=
  { board := createEmptyBoard,
    players := (⟨1, "A", 0, []⟩, ⟨2, "B", 0, []⟩),
    currentPlayerIndex := 0,
    tileBag := [],
    turnNumber := 1,
    placedThisTurn := [],
    isFirstMove := false,
    gameOver := false,
    winner := none }

/-- Witness for the end-of-game theorem: submitting a 3-point move from
`gameStateW` ends the game and player 0 wins. -/
theorem submit_end_of_game_witness :
    (submitAccept gameStateW 3).gameOver = true ∧
    (submitAccept gameStateW 3).winner = some 0 :=
  ⟨(submit_end_of_game gameStateW 3).1.mpr (by decide),
   ((submit_end_of_game gameStateW 3).2.1
     ((submit_end_of_game gameStateW 3).1.mpr (by decide))).1 (by decide)⟩

/-! ### Exchange guard and effects (claim C8) -/

theorem swapList_length (l : List Tile) (i j : Nat) :
    (swapList l i j).length = l.length := by
  unfold swapList
  split <;> simp

theorem fyLoop_length : ∀ (i : Nat) (js : List Nat) (l : List Tile),
    (fyLoop l js i).length = l.length := by
  intro i
  induction i with
  | zero => intro js l; cases js <;> rfl
  | succ k ih =>
    intro js l
    cases js with
    | nil => rfl
    | cons j rest =>
      show (fyLoop (swapList l (k + 1) j) rest k).length = l.length
      rw [ih, swapList_length]

theorem shuffleBag_length (js : List Nat) (l : List Tile) :
    (shuffleBag js l).length = l.length := fyLoop_length _ _ _

theorem length_filter_partition (p : Tile → Bool) (l : List Tile) :
    (l.filter p).length + (l.filter (fun x => !(p x))).length = l.length := by
  induction l with
  | nil => rfl
  | cons x xs ih =>
    by_cases h : p x <;> simp [List.filter_cons, h] <;> omega

theorem nodup_subset_length {l1 l2 : List Nat} (h : l1.Nodup) (hs : l1 ⊆ l2) :
    l1.length ≤ l2.length := by
  calc l1.length = l1.toFinset.card := by rw [List.toFinset_card_of_nodup h]
  _ ≤ l2.toFinset.card := Finset.card_le_card (fun x hx => by
      rw [List.mem_toFinset] at hx ⊢; exact hs hx)
  _ ≤ l2.length := l2.toFinset_card_le

theorem filter_sel_length_le (rack : List Tile) (selected : List Nat)
    (hnd : (rack.map Tile.id).Nodup) :
    (rack.filter (fun t => selected.contains t.id)).length ≤ selected.length := by
  have hsub : List.Sublist
      ((rack.filter (fun t => selected.contains t.id)).map Tile.id)
      (rack.map Tile.id) :=
    (List.filter_sublist rack).map Tile.id
  have h1 : ((rack.filter (fun t => selected.contains t.id)).map Tile.id).Nodup :=
    hnd.sublist hsub
  have h2 : (rack.filter (fun t => selected.contains t.id)).map Tile.id ⊆ selected := by
    intro x hx
    obtain ⟨t, ht, rfl⟩ := List.mem_map.mp hx
    have := List.of_mem_filter ht
    exact List.elem_iff.mp this
  have := nodup_subset_length h1 h2
  simpa using this

/-- Claim C8: exchanging with a bag smaller than the selection is rejected
with an explanatory message and leaves the state unchanged; otherwise (for a
rack with distinct tile ids) the rack size and the bag size are unchanged
while the turn passes to the other player and the turn number increments. -/
theorem exchange_guard_and_effects (s : GameState) (selected js : List Nat) :
    (s.tileBag.length < selected.length →
      confirmExchange selected js s = (s, some "Not enough tiles in the bag")) ∧
    (selected.length ≠ 0 → selected.length ≤ s.tileBag.length →
      ((getPlayer s s.currentPlayerIndex).rack.map Tile.id).Nodup →
      ((getPlayer (confirmExchange selected js s).1 s.currentPlayerIndex).rack.length =
          (getPlayer s s.currentPlayerIndex).rack.length ∧
       (confirmExchange selected js s).1.tileBag.length = s.tileBag.length ∧
       (confirmExchange selected js s).1.currentPlayerIndex =
          (if s.currentPlayerIndex = 0 then 1 else 0) ∧
       (confirmExchange selected js s).1.turnNumber = s.turnNumber + 1)) := by
  constructor
  · intro hlt
    have h0 : ¬ (selected.length = 0) := by omega
    unfold confirmExchange
    rw [if_neg h0, if_pos hlt]
  · intro h0 hle hnd
    have hnlt : ¬ (s.tileBag.length < selected.length) := by omega
    have ht : ((getPlayer s s.currentPlayerIndex).rack.filter
        (fun t => selected.contains t.id)).length ≤ s.tileBag.length :=
      le_trans (filter_sel_length_le _ _ hnd) hle
    have hpart := length_filter_partition
      (fun t => selected.contains t.id) (getPlayer s s.currentPlayerIndex).rack
    unfold confirmExchange
    rw [if_neg h0, if_neg hnlt]
    unfold getPlayer setPlayer drawTiles at *
    by_cases hi : s.currentPlayerIndex = 0 <;>
      simp only [hi, if_true, if_false, ite_true, ite_false] at * <;>
      refine ⟨?_, ?_, trivial, trivial⟩ <;>
      simp only [List.length_append, List.length_take, List.length_drop,
        shuffleBag_length] <;>
      omega

/-- A small exchange position: a two-tile rack and a one-tile bag. -/
def exchangeStateW : GameState :=
  { board := createEmptyBoard,
    players := (⟨1, "A", 0, [⟨1, "A", 1, false⟩, ⟨2, "B", 3, false⟩]⟩,
                ⟨2, "B", 0, []⟩),
    currentPlayerIndex := 0,
    tileBag := [⟨3, "C", 3, false⟩],
    turnNumber := 1,
    placedThisTurn := [],
    isFirstMove := true,
    gameOver := false,
    winner := none }

/-- Witness for the exchange theorem: selecting two tiles against a one-tile
bag is rejected unchanged, and a one-tile exchange keeps the rack at two
tiles. -/
theorem exchange_guard_and_effects_witness :
    confirmExchange [1, 2] [] exchangeStateW =
      (exchangeStateW, some "Not enough tiles in the bag") ∧
    (getPlayer (confirmExchange [1] [0] exchangeStateW).1 0).rack.length = 2 :=
  ⟨(exchange_guard_and_effects exchangeStateW [1, 2] []).1 (by decide),
   by
     have h := (exchange_guard_and_effects exchangeStateW [1] [0]).2
       (by decide) (by decide) (by decide)
     exact h.1.trans (by decide)⟩

/-! ### Tile conservation (claim C1) -/

/-- The tiles held by an optional cell content, as a multiset. -/
def tileM : Option Tile → Multiset Tile
  | some t => {t}
  | none => 0

/-- The tiles of one board row. -/
def rowTiles (row : List BoardCell) : Multiset Tile :=
  (row.map (fun c => tileM c.tile)).sum

/-- The tiles sitting on the board. -/
def boardTiles (b : Board) : Multiset Tile :=
  (b.map rowTiles).sum

/-- All tiles in the game: both racks, the bag, and the board. -/
def allTiles (s : GameState) : Multiset Tile :=
  (↑s.players.1.rack : Multiset Tile) + (↑s.players.2.rack : Multiset Tile) +
    (↑s.tileBag : Multiset Tile) + boardTiles s.board

/-- Number of occupied board cells (the claim's "tiles on board"). -/
def occupiedCount (b : Board) : Nat :=
  (b.map (fun row => (row.filter (fun c => c.tile.isSome)).length)).sum

/-- The claim's total: rack sizes plus bag size plus occupied cells. -/
def totalTiles (s : GameState) : Nat :=
  s.players.1.rack.length + s.players.2.rack.length + s.tileBag.length +
    occupiedCount s.board

/-- Total number of tiles described by a distribution. -/
def totalCount (dist : List TileData) : Nat := (dist.map TileData.count).sum

theorem rowTiles_card (row : List BoardCell) :
    (rowTiles row).card = (row.filter (fun c => c.tile.isSome)).length := by
  induction row with
  | nil => rfl
  | cons c cs ih =>
    unfold rowTiles at *
    rw [List.map_cons, List.sum_cons, Multiset.card_add, ih, List.filter_cons]
    cases hc : c.tile <;> simp [tileM, hc] <;> omega

theorem boardTiles_card (b : Board) :
    (boardTiles b).card = occupiedCount b := by
  unfold boardTiles occupiedCount
  induction b with
  | nil => rfl
  | cons row rows ih =>
    rw [List.map_cons, List.sum_cons, Multiset.card_add, ih, List.map_cons,
      List.sum_cons, rowTiles_card]

theorem totalTiles_eq_card (s : GameState) :
    totalTiles s = (allTiles s).card := by
  unfold totalTiles allTiles
  rw [Multiset.card_add, Multiset.card_add, Multiset.card_add, boardTiles_card]
  simp

theorem map_sum_set {α : Type} {M : Type} [AddCommMonoid M] (f : α → M) :
    ∀ (l : List α) (i : Nat) (x : α) (h : i < l.length),
      ((l.set i x).map f).sum + f (l.get ⟨i, h⟩) = (l.map f).sum + f x := by
  intro l
  induction l with
  | nil => intro i x h; exact absurd h (by simp)
  | cons a as ih =>
    intro i x h
    cases i with
    | zero =>
      simp only [List.set, List.get, List.map_cons, List.sum_cons]
      abel
    | succ k =>
      have hk : k < as.length := Nat.lt_of_succ_lt_succ h
      simp only [List.set, List.get_cons_succ, List.map_cons, List.sum_cons]
      rw [add_assoc, ih k x hk, ← add_assoc]

/-- A 15×15 board. -/
def boardShape (b : Board) : Prop :=
  b.length = 15 ∧ ∀ row ∈ b, row.length = 15

theorem boardShape_createEmptyBoard : boardShape createEmptyBoard := by
  constructor
  · rfl
  · intro row hrow
    unfold createEmptyBoard at hrow
    obtain ⟨r, _, rfl⟩ := List.mem_map.mp hrow
    simp

theorem getD_row_length {b : Board} (hsh : boardShape b) {r : Nat} (hr : r ≤ 14) :
    (b.getD r []).length = 15 := by
  obtain ⟨hlen, hrows⟩ := hsh
  have hr' : r < b.length := by omega
  rw [List.getD_eq_getElem _ _ hr']
  exact hrows _ (List.getElem_mem hr')

theorem boardShape_setCell {b : Board} (hsh : boardShape b) {r c : Nat}
    (hr : r ≤ 14) (hc : c ≤ 14) (v : BoardCell) :
    boardShape (setCell b r c v) := by
  have hrowlen := getD_row_length hsh hr
  obtain ⟨hlen, hrows⟩ := hsh
  refine ⟨by simpa [setCell] using hlen, ?_⟩
  intro row hrow
  rcases List.mem_or_eq_of_mem_set hrow with hmem | rfl
  · exact hrows row hmem
  · simpa using hrowlen

theorem cellAt_setCell_self {b : Board} (hsh : boardShape b) {r c : Nat}
    (hr : r ≤ 14) (hc : c ≤ 14) (v : BoardCell) :
    cellAt (setCell b r c v) r c = v := by
  have hlen := hsh.1
  have hrowlen := getD_row_length hsh hr
  have hr' : r < b.length := by omega
  have h1 : (setCell b r c v).getD r [] = (b.getD r []).set c v := by
    unfold setCell
    rw [List.getD_eq_getElem _ _ (by simpa using hr')]
    exact List.getElem_set_eq (by simpa using hr')
  unfold cellAt
  rw [h1, List.getD_eq_getElem _ _ (by simp only [List.length_set]; omega)]
  exact List.getElem_set_eq (by simp only [List.length_set]; omega)

theorem cellAt_setCell_ne {b : Board} (r c : Nat) (v : BoardCell)
    {r' c' : Nat} (h : (r', c') ≠ (r, c)) :
    cellAt (setCell b r c v) r' c' = cellAt b r' c' := by
  unfold cellAt setCell
  by_cases hrr : r' = r
  · subst hrr
    have hcc : c' ≠ c := fun he => h (by rw [he])
    by_cases hr : r' < b.length
    · have h2 : (b.set r' ((b.getD r' []).set c v)).getD r' [] =
          (b.getD r' []).set c v := by
        rw [List.getD_eq_getElem _ _ (by simpa using hr)]
        exact List.getElem_set_eq (by simpa using hr)
      rw [h2]
      simp [List.getD, List.getElem?_set_ne (Ne.symm hcc)]
    · rw [List.set_eq_of_length_le (by omega)]
  · simp [List.getD, List.getElem?_set_ne (Ne.symm hrr)]

theorem boardTiles_setCell {b : Board} (hsh : boardShape b) {r c : Nat}
    (hr : r ≤ 14) (hc : c ≤ 14) (v : BoardCell) :
    boardTiles (setCell b r c v) + tileM (cellAt b r c).tile =
      boardTiles b + tileM v.tile := by
  have hlen := hsh.1
  have hrowlen := getD_row_length hsh hr
  have hr' : r < b.length := by omega
  have hc' : c < (b.getD r []).length := by omega
  have houter := map_sum_set (f := rowTiles) b r ((b.getD r []).set c v) hr'
  have hinner := map_sum_set (f := fun cell => tileM cell.tile) (b.getD r []) c v hc'
  have hgetrow : b.get ⟨r, hr'⟩ = b.getD r [] := (List.getD_eq_getElem _ _ hr').symm
  have hgetcell : (b.getD r []).get ⟨c, hc'⟩ = cellAt b r c :=
    (List.getD_eq_getElem _ _ hc').symm
  rw [hgetrow] at houter
  rw [hgetcell] at hinner
  have hrowT : rowTiles ((b.getD r []).set c v) + tileM (cellAt b r c).tile =
      rowTiles (b.getD r []) + tileM v.tile := hinner
  have houter2 : boardTiles (setCell b r c v) + rowTiles (b.getD r []) =
      boardTiles b + rowTiles ((b.getD r []).set c v) := houter
  apply add_right_cancel (b := rowTiles (b.getD r []))
  calc boardTiles (setCell b r c v) + tileM (cellAt b r c).tile + rowTiles (b.getD r []) =
      (boardTiles (setCell b r c v) + rowTiles (b.getD r [])) + tileM (cellAt b r c).tile := by
        abel
  _ = (boardTiles b + rowTiles ((b.getD r []).set c v)) + tileM (cellAt b r c).tile := by
      rw [houter2]
  _ = boardTiles b + (rowTiles ((b.getD r []).set c v) + tileM (cellAt b r c).tile) := by
      abel
  _ = boardTiles b + (rowTiles (b.getD r []) + tileM v.tile) := by rw [hrowT]
  _ = boardTiles b + tileM v.tile + rowTiles (b.getD r []) := by abel

theorem get_cons_set_perm :
    ∀ (as : List Tile) (k : Nat) (hk : k < as.length) (a : Tile),
      List.Perm (as.get ⟨k, hk⟩ :: as.set k a) (a :: as) := by
  intro as
  induction as with
  | nil => intro k hk a; exact absurd hk (by simp)
  | cons b bs ih =>
    intro k hk a
    cases k with
    | zero => exact List.Perm.swap a b bs
    | succ m =>
      have hm : m < bs.length := Nat.lt_of_succ_lt_succ hk
      show List.Perm (bs.get ⟨m, hm⟩ :: b :: bs.set m a) (a :: b :: bs)
      have h1 : List.Perm (bs.get ⟨m, hm⟩ :: b :: bs.set m a)
          (b :: bs.get ⟨m, hm⟩ :: bs.set m a) := List.Perm.swap _ _ _
      have h2 : List.Perm (b :: bs.get ⟨m, hm⟩ :: bs.set m a) (b :: a :: bs) :=
        List.Perm.cons b (ih m hm a)
      have h3 : List.Perm (b :: a :: bs) (a :: b :: bs) := List.Perm.swap _ _ _
      exact (h1.trans h2).trans h3

theorem set_set_swap_perm :
    ∀ (l : List Tile) (i j : Nat) (hi : i < l.length) (hj : j < l.length),
      List.Perm ((l.set i (l.get ⟨j, hj⟩)).set j (l.get ⟨i, hi⟩)) l := by
  intro l
  induction l with
  | nil => intro i j hi _; exact absurd hi (by simp)
  | cons a as ih =>
    intro i j hi hj
    cases i with
    | zero =>
      cases j with
      | zero => exact List.Perm.refl _
      | succ m =>
        have hm : m < as.length := Nat.lt_of_succ_lt_succ hj
        show List.Perm (as.get ⟨m, hm⟩ :: as.set m a) (a :: as)
        exact get_cons_set_perm as m hm a
    | succ k =>
      cases j with
      | zero =>
        have hk : k < as.length := Nat.lt_of_succ_lt_succ hi
        show List.Perm (as.get ⟨k, hk⟩ :: as.set k a) (a :: as)
        exact get_cons_set_perm as k hk a
      | succ m =>
        have hk : k < as.length := Nat.lt_of_succ_lt_succ hi
        have hm : m < as.length := Nat.lt_of_succ_lt_succ hj
        show List.Perm (a :: (as.set k (as.get ⟨m, hm⟩)).set m (as.get ⟨k, hk⟩))
          (a :: as)
        exact List.Perm.cons a (ih k m hk hm)

theorem swapList_perm (l : List Tile) (i j : Nat) :
    List.Perm (swapList l i j) l := by
  unfold swapList
  split
  next h => exact set_set_swap_perm l i j h.1 h.2
  next h => exact List.Perm.refl l

theorem fyLoop_perm : ∀ (i : Nat) (js : List Nat) (l : List Tile),
    List.Perm (fyLoop l js i) l := by
  intro i
  induction i with
  | zero => intro js l; cases js <;> exact List.Perm.refl _
  | succ k ih =>
    intro js l
    cases js with
    | nil => exact List.Perm.refl _
    | cons j rest =>
      show List.Perm (fyLoop (swapList l (k + 1) j) rest k) l
      exact (ih rest _).trans (swapList_perm l (k + 1) j)

theorem shuffleBag_perm (js : List Nat) (l : List Tile) :
    List.Perm (shuffleBag js l) l := fyLoop_perm _ _ _

theorem rack_filter_perm (rack : List Tile) (t : Tile) (ht : t ∈ rack)
    (hnd : (rack.map Tile.id).Nodup) :
    List.Perm rack (t :: rack.filter (fun x => x.id ≠ t.id)) := by
  induction rack with
  | nil => cases ht
  | cons a as ih =>
    rw [List.map_cons, List.nodup_cons] at hnd
    rcases List.mem_cons.mp ht with rfl | hmem
    · have hfil : as.filter (fun x => x.id ≠ t.id) = as := by
        apply List.filter_eq_self.mpr
        intro x hx
        have hne : x.id ≠ t.id := fun he =>
          hnd.1 (he ▸ List.mem_map_of_mem Tile.id hx)
        simpa using hne
      rw [List.filter_cons_of_neg (by simp), hfil]
    · have hane : a.id ≠ t.id := by
        intro he
        exact hnd.1 (he ▸ List.mem_map_of_mem Tile.id hmem)
      rw [List.filter_cons_of_pos (by simpa using hane)]
      exact ((ih hmem hnd.2).cons a).trans (List.Perm.swap t a _)

/-- Invariant of reachable states: globally distinct tile ids, a 15×15
board, and a well-formed placed-this-turn list whose entries sit on the
board (spec §3 invariants). -/
structure Inv (s : GameState) : Prop where
  nodup : ((allTiles s).map Tile.id).Nodup
  shape : boardShape s.board
  placedPos : (s.placedThisTurn.map (fun p => (p.row, p.col))).Nodup
  placedCell : ∀ p ∈ s.placedThisTurn,
    p.row ≤ 14 ∧ p.col ≤ 14 ∧ (cellAt s.board p.row p.col).tile = some p.tile

/-- The states reachable through the Turn Controller operations of App.tsx,
starting from a fresh game. The side conditions record what the UI layer
guarantees: drops land on board cells and drag a tile of the current rack. -/
inductive Reachable (dist : List TileData) : GameState → Prop
  | init (js : List Nat) (n1 n2 : String) :
      Reachable dist (initializeGame dist js n1 n2)
  | place {s} (t : Tile) (row col : Nat) (hrow : row ≤ 14) (hcol : col ≤ 14)
      (ht : t ∈ (getPlayer s s.currentPlayerIndex).rack)
      (hs : Reachable dist s) : Reachable dist (placeFromRack s t row col)
  | recallMove {s} (hs : Reachable dist s) : Reachable dist (recallTiles s)
  | submit {s} (score : Nat) (hs : Reachable dist s) :
      Reachable dist (submitAccept s score)
  | pass {s} (hs : Reachable dist s) : Reachable dist (passTurn s)
  | exchange {s} (selected js : List Nat) (hs : Reachable dist s) :
      Reachable dist (confirmExchange selected js s).1

theorem rack_nodup_of_inv {s : GameState} (hinv : Inv s) (i : Nat) :
    ((getPlayer s i).rack.map Tile.id).Nodup := by
  have h := hinv.nodup
  unfold allTiles at h
  rw [Multiset.map_add, Multiset.map_add, Multiset.map_add] at h
  unfold getPlayer
  by_cases hi : i = 0 <;> simp only [hi, if_true, if_false, ite_true, ite_false]
  · have := (Multiset.nodup_add.mp
      (Multiset.nodup_add.mp (Multiset.nodup_add.mp h).1).1).1
    simpa using this
  · have := (Multiset.nodup_add.mp
      (Multiset.nodup_add.mp (Multiset.nodup_add.mp h).1).1).2.1
    simpa using this

theorem allTiles_placeFromRack {s : GameState} (hinv : Inv s) {t : Tile}
    {row col : Nat} (hrow : row ≤ 14) (hcol : col ≤ 14)
    (ht : t ∈ (getPlayer s s.currentPlayerIndex).rack) :
    allTiles (placeFromRack s t row col) = allTiles s := by
  unfold placeFromRack
  split
  next => rfl
  next hocc =>
    have hold : (cellAt s.board row col).tile = none := by
      cases hx : (cellAt s.board row col).tile with
      | none => rfl
      | some u => exact absurd (by simp [hx]) hocc
    have hboard := boardTiles_setCell hinv.shape hrow hcol
      { cellAt s.board row col with tile := some t, isNewlyPlaced := true }
    rw [hold] at hboard
    have hboard2 : boardTiles (setCell s.board row col
        { cellAt s.board row col with tile := some t, isNewlyPlaced := true }) =
        boardTiles s.board + {t} := by
      simpa [tileM] using hboard
    have hperm := rack_filter_perm _ t ht (rack_nodup_of_inv hinv s.currentPlayerIndex)
    have hrack : (↑(getPlayer s s.currentPlayerIndex).rack : Multiset Tile) =
        {t} + ↑((getPlayer s s.currentPlayerIndex).rack.filter
          (fun x => x.id ≠ t.id)) := by
      rw [Multiset.coe_eq_coe.mpr hperm]
      simp [Multiset.singleton_add]
    unfold allTiles getPlayer setPlayer at *
    by_cases hi : s.currentPlayerIndex = 0 <;>
      simp only [hi, if_true, if_false, ite_true, ite_false] at * <;>
      rw [hboard2, hrack] <;>
      abel

theorem clearPlacedCells_spec :
    ∀ (placed : List PlacedTile) (b : Board),
      boardShape b →
      (placed.map (fun p => (p.row, p.col))).Nodup →
      (∀ p ∈ placed, p.row ≤ 14 ∧ p.col ≤ 14 ∧
        (cellAt b p.row p.col).tile = some p.tile) →
      boardTiles (clearPlacedCells b placed) +
          (↑(placed.map PlacedTile.tile) : Multiset Tile) = boardTiles b ∧
        boardShape (clearPlacedCells b placed) := by
  intro placed
  induction placed with
  | nil =>
    intro b hsh _ _
    exact ⟨by simp [clearPlacedCells], hsh⟩
  | cons p ps ih =>
    intro b hsh hpos hcell
    obtain ⟨hr, hc, htile⟩ := hcell p (List.mem_cons_self p ps)
    have hset := boardTiles_setCell hsh hr hc
      { cellAt b p.row p.col with tile := none, isNewlyPlaced := false }
    rw [htile] at hset
    have hset2 : boardTiles (setCell b p.row p.col
        { cellAt b p.row p.col with tile := none, isNewlyPlaced := false }) +
        ({p.tile} : Multiset Tile) = boardTiles b := by
      simpa [tileM] using hset
    have hsh1 := boardShape_setCell hsh hr hc
      { cellAt b p.row p.col with tile := none, isNewlyPlaced := false }
    have hnotmem := (List.nodup_cons.mp hpos).1
    have hpos1 := (List.nodup_cons.mp hpos).2
    have hcell1 : ∀ q ∈ ps, q.row ≤ 14 ∧ q.col ≤ 14 ∧
        (cellAt (setCell b p.row p.col
          { cellAt b p.row p.col with tile := none, isNewlyPlaced := false })
          q.row q.col).tile = some q.tile := by
      intro q hq
      obtain ⟨hqr, hqc, hqt⟩ := hcell q (List.mem_cons_of_mem _ hq)
      refine ⟨hqr, hqc, ?_⟩
      have hmemq : (q.row, q.col) ∈ ps.map (fun x => (x.row, x.col)) :=
        List.mem_map_of_mem _ hq
      have hnotmem2 : (p.row, p.col) ∉ ps.map (fun x => (x.row, x.col)) := hnotmem
      rw [cellAt_setCell_ne _ _ _ (fun he => hnotmem2 (by rw [← he]; exact hmemq))]
      exact hqt
    obtain ⟨ih1, ih2⟩ := ih _ hsh1 hpos1 hcell1
    have hstep : clearPlacedCells b (p :: ps) =
        clearPlacedCells (setCell b p.row p.col
          { cellAt b p.row p.col with tile := none, isNewlyPlaced := false }) ps := rfl
    refine ⟨?_, by rw [hstep]; exact ih2⟩
    rw [hstep]
    calc boardTiles (clearPlacedCells _ ps) +
        (↑((p :: ps).map PlacedTile.tile) : Multiset Tile) =
        (boardTiles (clearPlacedCells _ ps) +
          (↑(ps.map PlacedTile.tile) : Multiset Tile)) + {p.tile} := by
          simp only [List.map_cons, ← Multiset.cons_coe, ← Multiset.singleton_add]
          abel
    _ = boardTiles (setCell b p.row p.col
        { cellAt b p.row p.col with tile := none, isNewlyPlaced := false }) +
        ({p.tile} : Multiset Tile) := by rw [ih1]
    _ = boardTiles b := hset2

theorem allTiles_recallTiles {s : GameState} (hinv : Inv s) :
    allTiles (recallTiles s) = allTiles s := by
  obtain ⟨hclear, _⟩ := clearPlacedCells_spec s.placedThisTurn s.board
    hinv.shape hinv.placedPos hinv.placedCell
  unfold recallTiles allTiles getPlayer setPlayer
  by_cases hi : s.currentPlayerIndex = 0 <;>
    simp only [hi, if_true, if_false, ite_true, ite_false] <;>
    rw [← Multiset.coe_add] <;>
    rw [← hclear] <;>
    abel

theorem rowTiles_map_eq_of_tile (g : BoardCell → BoardCell)
    (hg : ∀ c, (g c).tile = c.tile) :
    ∀ row : List BoardCell, rowTiles (row.map g) = rowTiles row := by
  intro row
  induction row with
  | nil => rfl
  | cons c cs ih =>
    unfold rowTiles at *
    simp only [List.map_cons, List.sum_cons, hg, ih]

theorem boardTiles_clearFlags (b : Board) (i : Nat) :
    boardTiles (clearNewlyPlacedFlags b i) = boardTiles b := by
  unfold boardTiles clearNewlyPlacedFlags
  rw [List.map_map]
  apply congrArg List.sum
  apply List.map_congr_left
  intro r _
  show rowTiles (r.map (fun c =>
    { c with
      isNewlyPlaced := false,
      placedByPlayer := if c.isNewlyPlaced then some i
                        else c.placedByPlayer })) = rowTiles r
  exact rowTiles_map_eq_of_tile (fun c =>
    { c with
      isNewlyPlaced := false,
      placedByPlayer := if c.isNewlyPlaced then some i
                        else c.placedByPlayer }) (fun c => rfl) r

theorem boardShape_clearFlags {b : Board} (hsh : boardShape b) (i : Nat) :
    boardShape (clearNewlyPlacedFlags b i) := by
  obtain ⟨hlen, hrows⟩ := hsh
  constructor
  · simpa [clearNewlyPlacedFlags] using hlen
  · intro row hrow
    unfold clearNewlyPlacedFlags at hrow
    obtain ⟨row0, hmem, rfl⟩ := List.mem_map.mp hrow
    simpa using hrows row0 hmem

theorem coe_take_drop (n : Nat) (l : List Tile) :
    (↑(l.take n) : Multiset Tile) + ↑(l.drop n) = ↑l := by
  rw [Multiset.coe_add]
  exact congrArg (fun x => ((x : List Tile) : Multiset Tile)) (List.take_append_drop n l)

theorem allTiles_submitAccept {s : GameState} (score : Nat) :
    allTiles (submitAccept s score) = allTiles s := by
  have hbag := coe_take_drop (min s.placedThisTurn.length s.tileBag.length) s.tileBag
  unfold submitAccept allTiles getPlayer setPlayer drawTiles
  by_cases hi : s.currentPlayerIndex = 0 <;>
    simp only [hi, if_true, if_false, ite_true, ite_false, ← Multiset.coe_add] <;>
    rw [boardTiles_clearFlags, ← hbag] <;>
    abel

theorem allTiles_passTurn (s : GameState) :
    allTiles (passTurn s) = allTiles s := rfl

theorem exchange_perm_core (p : Tile → Bool) (js : List Nat)
    (rack bag : List Tile) :
    (↑(rack.filter (fun t => !(p t)) ++ bag.take (rack.filter p).length) :
        Multiset Tile) +
      ↑(shuffleBag js (bag.drop (rack.filter p).length ++ rack.filter p)) =
    ↑rack + ↑bag := by
  have hs : (↑(shuffleBag js (bag.drop (rack.filter p).length ++ rack.filter p)) :
      Multiset Tile) = ↑(bag.drop (rack.filter p).length ++ rack.filter p) :=
    Multiset.coe_eq_coe.mpr (shuffleBag_perm _ _)
  rw [hs]
  have h1 : (↑(rack.filter p) : Multiset Tile) + ↑(rack.filter (fun t => !(p t))) =
      ↑rack := by
    rw [Multiset.coe_add]
    exact Multiset.coe_eq_coe.mpr (List.filter_append_perm p rack)
  have h2 := coe_take_drop (rack.filter p).length bag
  simp only [← Multiset.coe_add]
  rw [← h1, ← h2]
  abel

theorem conserve_aux {A B C D R X : Multiset Tile} (h : A + B = C + D) :
    A + R + B + X = C + R + D + X := by
  calc A + R + B + X = (A + B) + (R + X) := by abel
  _ = (C + D) + (R + X) := by rw [h]
  _ = C + R + D + X := by abel

theorem conserve_aux2 {A B C D R X : Multiset Tile} (h : A + B = C + D) :
    R + A + B + X = R + C + D + X := by
  calc R + A + B + X = (A + B) + (R + X) := by abel
  _ = (C + D) + (R + X) := by rw [h]
  _ = R + C + D + X := by abel

theorem allTiles_confirmExchange (selected js : List Nat) (s : GameState) :
    allTiles (confirmExchange selected js s).1 = allTiles s := by
  unfold confirmExchange
  split
  next => rfl
  split
  next => rfl
  next h0 hlt =>
    have hcore := exchange_perm_core (fun t => selected.contains t.id) js
      (getPlayer s s.currentPlayerIndex).rack s.tileBag
    unfold allTiles getPlayer setPlayer drawTiles at *
    by_cases hi : s.currentPlayerIndex = 0
    · simp only [hi, if_true, ite_true] at hcore ⊢
      exact conserve_aux hcore
    · simp only [hi, if_false, ite_false] at hcore ⊢
      exact conserve_aux2 hcore

/-! ### Reachable-state invariants and tile conservation (claim C1) -/

theorem rowTiles_none (row : List BoardCell) (h : ∀ c ∈ row, c.tile = none) :
    rowTiles row = 0 := by
  unfold rowTiles
  apply List.sum_eq_zero
  intro x hx
  obtain ⟨c, hc, rfl⟩ := List.mem_map.mp hx
  rw [h c hc]
  rfl

theorem boardTiles_createEmptyBoard : boardTiles createEmptyBoard = 0 := by
  unfold boardTiles
  apply List.sum_eq_zero
  intro x hx
  obtain ⟨row, hrow, rfl⟩ := List.mem_map.mp hx
  apply rowTiles_none
  intro c hc
  unfold createEmptyBoard at hrow
  obtain ⟨r, _, rfl⟩ := List.mem_map.mp hrow
  obtain ⟨cc, _, rfl⟩ := List.mem_map.mp hc
  rfl

theorem makeCopies_ids (d : TileData) (n : Nat) :
    (makeCopies d n).map Tile.id = List.range' n d.count := by
  unfold makeCopies
  rw [List.map_map, List.range'_eq_map_range]
  rfl

theorem expandDist_ids :
    ∀ (dist : List TileData) (n : Nat),
      (expandDist dist n).map Tile.id = List.range' n (totalCount dist) := by
  intro dist
  induction dist with
  | nil => intro n; rfl
  | cons d rest ih =>
    intro n
    have h2 : totalCount (d :: rest) = totalCount rest + d.count := by
      unfold totalCount
      rw [List.map_cons, List.sum_cons]
      omega
    show (makeCopies d n ++ expandDist rest (n + d.count)).map Tile.id =
      List.range' n (totalCount (d :: rest))
    rw [List.map_append, makeCopies_ids, ih, h2]
    have h3 := List.range'_append n d.count (totalCount rest) 1
    rw [one_mul] at h3
    exact h3

theorem expandDist_length (dist : List TileData) (n : Nat) :
    (expandDist dist n).length = totalCount dist := by
  have h := congrArg List.length (expandDist_ids dist n)
  simpa [List.length_range'] using h

theorem expandDist_ids_nodup (dist : List TileData) (n : Nat) :
    ((expandDist dist n).map Tile.id).Nodup := by
  rw [expandDist_ids]
  exact List.nodup_range' _ _

theorem allTiles_initializeGame (dist : List TileData) (js : List Nat)
    (n1 n2 : String) :
    allTiles (initializeGame dist js n1 n2) =
      (↑(expandDist dist 0) : Multiset Tile) := by
  unfold initializeGame allTiles drawTiles
  simp only [boardTiles_createEmptyBoard, add_zero]
  have h1 := coe_take_drop 7 (createTileBag dist js)
  have h2 := coe_take_drop 7 ((createTileBag dist js).drop 7)
  rw [add_assoc, h2, h1]
  exact Multiset.coe_eq_coe.mpr (shuffleBag_perm js (expandDist dist 0))

theorem inv_initializeGame (dist : List TileData) (js : List Nat)
    (n1 n2 : String) : Inv (initializeGame dist js n1 n2) := by
  refine ⟨?_, ?_, ?_, ?_⟩
  · rw [allTiles_initializeGame]
    have h := expandDist_ids_nodup dist 0
    simpa [Multiset.map_coe, Multiset.coe_nodup] using h
  · exact boardShape_createEmptyBoard
  · exact List.nodup_nil
  · intro p hp
    exact absurd hp (List.not_mem_nil p)

theorem inv_placeFromRack {s : GameState} (hinv : Inv s) {t : Tile}
    {row col : Nat} (hrow : row ≤ 14) (hcol : col ≤ 14)
    (ht : t ∈ (getPlayer s s.currentPlayerIndex).rack) :
    Inv (placeFromRack s t row col) := by
  refine ⟨?_, ?_, ?_, ?_⟩
  · rw [allTiles_placeFromRack hinv hrow hcol ht]
    exact hinv.nodup
  · unfold placeFromRack
    split
    next => exact hinv.shape
    next => exact boardShape_setCell hinv.shape hrow hcol _
  · unfold placeFromRack
    split
    next => exact hinv.placedPos
    next hocc =>
      show ((s.placedThisTurn ++ [(⟨row, col, t⟩ : PlacedTile)]).map
        (fun p => (p.row, p.col))).Nodup
      rw [List.map_append, List.nodup_append]
      refine ⟨hinv.placedPos, by simp, ?_⟩
      intro a ha hb
      simp only [List.map_cons, List.map_nil, List.mem_singleton] at hb
      obtain ⟨p, hp, hpa⟩ := List.mem_map.mp ha
      apply hocc
      rw [hb] at hpa
      have hr : p.row = row := congrArg Prod.fst hpa
      have hc : p.col = col := congrArg Prod.snd hpa
      obtain ⟨_, _, hcell⟩ := hinv.placedCell p hp
      rw [← hr, ← hc, hcell]
      rfl
  · unfold placeFromRack
    split
    next => exact hinv.placedCell
    next hocc =>
      intro p hp
      show p.row ≤ 14 ∧ p.col ≤ 14 ∧
        (cellAt (setCell s.board row col
          { cellAt s.board row col with tile := some t, isNewlyPlaced := true })
          p.row p.col).tile = some p.tile
      rcases List.mem_append.mp hp with hmem | hnew
      · obtain ⟨h1, h2, h3⟩ := hinv.placedCell p hmem
        refine ⟨h1, h2, ?_⟩
        rw [cellAt_setCell_ne _ _ _ (fun he => hocc (by
          have hr : p.row = row := congrArg Prod.fst he
          have hc : p.col = col := congrArg Prod.snd he
          rw [← hr, ← hc, h3]
          rfl))]
        exact h3
      · have hp2 : p = ⟨row, col, t⟩ := by simpa using hnew
        subst hp2
        refine ⟨hrow, hcol, ?_⟩
        rw [cellAt_setCell_self hinv.shape hrow hcol]

theorem inv_recallTiles {s : GameState} (hinv : Inv s) : Inv (recallTiles s) := by
  obtain ⟨_, hsh⟩ := clearPlacedCells_spec s.placedThisTurn s.board
    hinv.shape hinv.placedPos hinv.placedCell
  refine ⟨?_, hsh, List.nodup_nil, fun p hp => absurd hp (List.not_mem_nil p)⟩
  rw [allTiles_recallTiles hinv]
  exact hinv.nodup

theorem inv_submitAccept {s : GameState} (hinv : Inv s) (score : Nat) :
    Inv (submitAccept s score) := by
  refine ⟨?_, ?_, List.nodup_nil, fun p hp => absurd hp (List.not_mem_nil p)⟩
  · rw [allTiles_submitAccept score]
    exact hinv.nodup
  · exact boardShape_clearFlags hinv.shape s.currentPlayerIndex

theorem inv_passTurn {s : GameState} (hinv : Inv s) : Inv (passTurn s) := by
  refine ⟨?_, hinv.shape, hinv.placedPos, hinv.placedCell⟩
  rw [allTiles_passTurn]
  exact hinv.nodup

theorem confirmExchange_board (selected js : List Nat) (s : GameState) :
    (confirmExchange selected js s).1.board = s.board := by
  unfold confirmExchange
  split
  · rfl
  · split <;> rfl

theorem confirmExchange_placed (selected js : List Nat) (s : GameState) :
    (confirmExchange selected js s).1.placedThisTurn = s.placedThisTurn := by
  unfold confirmExchange
  split
  · rfl
  · split <;> rfl

theorem inv_confirmExchange {s : GameState} (hinv : Inv s)
    (selected js : List Nat) : Inv (confirmExchange selected js s).1 := by
  refine ⟨?_, ?_, ?_, ?_⟩
  · rw [allTiles_confirmExchange]
    exact hinv.nodup
  · rw [confirmExchange_board]
    exact hinv.shape
  · rw [confirmExchange_placed]
    exact hinv.placedPos
  · rw [confirmExchange_board, confirmExchange_placed]
    exact hinv.placedCell

theorem reachable_inv {dist : List TileData} {s : GameState}
    (hs : Reachable dist s) : Inv s := by
  induction hs with
  | init js n1 n2 => exact inv_initializeGame dist js n1 n2
  | place t row col hrow hcol ht hs ih => exact inv_placeFromRack ih hrow hcol ht
  | recallMove hs ih => exact inv_recallTiles ih
  | submit score hs ih => exact inv_submitAccept ih score
  | pass hs ih => exact inv_passTurn ih
  | exchange selected js hs ih => exact inv_confirmExchange ih selected js

theorem allTiles_reachable {dist : List TileData} {s : GameState}
    (hs : Reachable dist s) :
    allTiles s = (↑(expandDist dist 0) : Multiset Tile) := by
  induction hs with
  | init js n1 n2 => exact allTiles_initializeGame dist js n1 n2
  | place t row col hrow hcol ht hs ih =>
    rw [allTiles_placeFromRack (reachable_inv hs) hrow hcol ht]
    exact ih
  | recallMove hs ih =>
    rw [allTiles_recallTiles (reachable_inv hs)]
    exact ih
  | submit score hs ih =>
    rw [allTiles_submitAccept score]
    exact ih
  | pass hs ih =>
    rw [allTiles_passTurn]
    exact ih
  | exchange selected js hs ih =>
    rw [allTiles_confirmExchange]
    exact ih

/-- Claim C1: tile conservation. For every reachable game state the total
number of tiles across both racks, the bag and the occupied board cells
equals the fixed total count of the tile distribution, and each Turn
Controller operation — placing a tile from the rack, recalling the placed
tiles, an accepted submit with its replacement draw, passing, and
exchanging tiles — leaves that total unchanged. -/
theorem tile_conservation (dist : List TileData) (s : GameState)
    (hs : Reachable dist s) :
    totalTiles s = totalCount dist ∧
    (∀ (t : Tile) (row col : Nat), row ≤ 14 → col ≤ 14 →
      t ∈ (getPlayer s s.currentPlayerIndex).rack →
      totalTiles (placeFromRack s t row col) = totalTiles s) ∧
    totalTiles (recallTiles s) = totalTiles s ∧
    (∀ score : Nat, totalTiles (submitAccept s score) = totalTiles s) ∧
    totalTiles (passTurn s) = totalTiles s ∧
    (∀ selected js : List Nat,
      totalTiles (confirmExchange selected js s).1 = totalTiles s) := by
  have hinv := reachable_inv hs
  have hall := allTiles_reachable hs
  have hcard : totalTiles s = totalCount dist := by
    rw [totalTiles_eq_card, hall, Multiset.coe_card, expandDist_length]
  refine ⟨hcard, ?_, ?_, ?_, ?_, ?_⟩
  · intro t row col hrow hcol ht
    rw [totalTiles_eq_card, totalTiles_eq_card,
      allTiles_placeFromRack hinv hrow hcol ht]
  · rw [totalTiles_eq_card, totalTiles_eq_card, allTiles_recallTiles hinv]
  · intro score
    rw [totalTiles_eq_card, totalTiles_eq_card, allTiles_submitAccept score]
  · rw [totalTiles_eq_card, totalTiles_eq_card, allTiles_passTurn]
  · intro selected js
    rw [totalTiles_eq_card, totalTiles_eq_card, allTiles_confirmExchange]

theorem tile_conservation_witness :
    totalTiles (initializeGame [⟨"A", 1, 2, false⟩] [] "" "") =
      totalCount [⟨"A", 1, 2, false⟩] ∧
    totalCount [⟨"A", 1, 2, false⟩] = 2 :=
  ⟨(tile_conservation [⟨"A", 1, 2, false⟩] _ (Reachable.init [] "" "")).1,
   by decide⟩

/-! ### The part_002 App: game modes and the v2 submit handler (claims C6, C9) -/

/-- The game modes of the part_002 App (`GameMode`). -/
inductive GameMode
  | standard
  | expert
  | freeplay
  | tournament
deriving DecidableEq

/-- The user-visible outcome of the part_002 `handleSubmitWord`. -/
inductive SubmitOutcome
  | loadingMsg
  | placeFirstMsg
  | freePlayAccept (score : Nat)
  | expertForfeitMsg (msg : String)
  | rejected (msg : String)
  | accepted (score : Nat)
deriving DecidableEq

/-- `tileToReturn` of the part_002 recall paths: blank tiles go back to the
rack with their assigned letter reset to the empty string. -/
def resetBlank (t : Tile) : Tile :=
  if t.isBlank then { t with letter := "" } else t

/-- Dropping a rack tile on the board in the part_002 App: occupied cells
are a no-op; a blank with no letter yet gets the letter chosen in
`handleBlankLetterSelect` (the tile stays blank, hence worth 0). -/
def placeWithLetter (s : GameState) (t : Tile) (letter : String)
    (row col : Nat) : GameState :=
  if (cellAt s.board row col).tile.isSome then s
  else
    let updatedTile := if t.isBlank && t.letter == "" then { t with letter := letter } else t
    let newBoard := setCell s.board row col
      { cellAt s.board row col with tile := some updatedTile, isNewlyPlaced := true }
    let p := getPlayer s s.currentPlayerIndex
    let p2 := { p with rack := p.rack.filter (fun x => x.id ≠ t.id) }
    { s with
      board := newBoard,
      players := setPlayer s.players s.currentPlayerIndex p2,
      placedThisTurn := s.placedThisTurn ++ [⟨row, col, updatedTile⟩] }

/-- The part_002 `handleRecallTiles`: clear the placed cells and return the
placed tiles to the rack, resetting blank letters. -/
def recallTilesV2 (s : GameState) : GameState :=
  let newBoard := clearPlacedCells s.board s.placedThisTurn
  let tilesReturned := s.placedThisTurn.map (fun p => resetBlank p.tile)
  let p := getPlayer s s.currentPlayerIndex
  let p2 := { p with rack := p.rack ++ tilesReturned }
  { s with
    board := newBoard,
    players := setPlayer s.players s.currentPlayerIndex p2,
    placedThisTurn := [] }

/-- The expert-mode forfeit branch of the part_002 `handleSubmitWord`:
recall the tiles (with blank reset) and pass the turn to the other player. -/
def expertForfeit (s : GameState) : GameState :=
  let newBoard := clearPlacedCells s.board s.placedThisTurn
  let tilesReturned := s.placedThisTurn.map (fun p => resetBlank p.tile)
  let p := getPlayer s s.currentPlayerIndex
  let p2 := { p with rack := p.rack ++ tilesReturned }
  { s with
    board := newBoard,
    players := setPlayer s.players s.currentPlayerIndex p2,
    currentPlayerIndex := if s.currentPlayerIndex = 0 then 1 else 0,
    placedThisTurn := [],
    turnNumber := s.turnNumber + 1 }

/-- `pat` occurs at the head of `l`. -/
def startsWithList : List Char → List Char → Bool
  | [], _ => true
  | _ :: _, [] => false
  | p :: ps, x :: xs => p == x && startsWithList ps xs

/-- `pat` occurs somewhere inside `l` (JavaScript `String.includes`). -/
def containsList (pat : List Char) : List Char → Bool
  | [] => startsWithList pat []
  | x :: xs => startsWithList pat (x :: xs) || containsList pat xs

/-- `errorMessage.includes('Cannot form valid words')` of the part_002
`handleSubmitWord`. -/
def isInvalidWordError (msg : String) : Bool :=
  containsList "Cannot form valid words".toList msg.toList

/-- The part_002 `handleSubmitWord`: the dictionary-loading gate (skipped in
free play), the empty-placement gate, then validation; an invalid result
whose primary error is the dictionary-word failure is accepted with the raw
tile sum in free play and forfeits the turn in expert mode; otherwise the
error is surfaced; a valid result is accepted with its computed score. -/
def handleSubmitWordV2 (gameMode : GameMode) (dictionaryLoaded : Bool)
    (isValidWord : String → Bool) (s : GameState) :
    GameState × SubmitOutcome :=
  if gameMode ≠ GameMode.freeplay ∧ dictionaryLoaded = false then
    (s, SubmitOutcome.loadingMsg)
  else if s.placedThisTurn.length = 0 then
    (s, SubmitOutcome.placeFirstMsg)
  else
    let placedPositions := s.placedThisTurn.map (fun p => (⟨p.row, p.col⟩ : Pos))
    let result := findWordsFromPlacement isValidWord s.board placedPositions s.isFirstMove
    if result.isValid = false then
      let errorMessage := result.errors.headD "Invalid placement"
      if gameMode = GameMode.freeplay ∧ isInvalidWordError errorMessage = true then
        let freePlayScore := (s.placedThisTurn.map (fun p => p.tile.points)).sum
        (submitAccept s freePlayScore, SubmitOutcome.freePlayAccept freePlayScore)
      else if gameMode = GameMode.expert ∧ isInvalidWordError errorMessage = true then
        (expertForfeit s, SubmitOutcome.expertForfeitMsg errorMessage)
      else
        (s, SubmitOutcome.rejected errorMessage)
    else
      (submitAccept s result.totalScore, SubmitOutcome.accepted result.totalScore)

/-! ### Free-play scoring (claim C6) -/

def tileC6C : Tile := ⟨100, "C", 3, false⟩

def tileC6A : Tile := ⟨101, "A", 1, false⟩

def tileC6T : Tile := ⟨102, "T", 1, false⟩

/-- Board with the newly placed word CAT on row 7, columns 6-8, through the
center cell. -/
def catBoard : Board :=
  setCell (setCell (setCell createEmptyBoard
    7 6 { cellAt createEmptyBoard 7 6 with tile := some tileC6C, isNewlyPlaced := true })
    7 7 { cellAt createEmptyBoard 7 7 with tile := some tileC6A, isNewlyPlaced := true })
    7 8 { cellAt createEmptyBoard 7 8 with tile := some tileC6T, isNewlyPlaced := true }

/-- A first-move state in which the current player just placed CAT. -/
def catState : GameState :=
  { board := catBoard,
    players := (⟨1, "Player 1", 0, []⟩, ⟨2, "Player 2", 0, []⟩),
    currentPlayerIndex := 0,
    tileBag := [],
    turnNumber := 1,
    placedThisTurn := [⟨7, 6, tileC6C⟩, ⟨7, 7, tileC6A⟩, ⟨7, 8, tileC6T⟩],
    isFirstMove := true,
    gameOver := false,
    winner := none }

/-- A dictionary containing CAT. -/
def catDict : String → Bool := fun w => w == "CAT"

/-- A dictionary containing nothing. -/
def noCatDict : String → Bool := fun _ => false

/-- Claim C6 counterexample: in free-play mode the dictionary check is NOT
skipped and bonus squares are not ignored. With CAT in the dictionary the
structurally valid placement of CAT through the center is accepted through
the normal scoring path for 10 points (3+1+1 doubled by the center word
bonus), not the raw tile sum 5; only when the dictionary rejects the word
does the raw-sum free-play path fire. -/
theorem freeplay_dictionary_not_skipped :
    (handleSubmitWordV2 GameMode.freeplay false catDict catState).2 =
      SubmitOutcome.accepted 10 ∧
    (handleSubmitWordV2 GameMode.freeplay false catDict catState).1.players.1.score
      = 10 ∧
    (handleSubmitWordV2 GameMode.freeplay false noCatDict catState).2 =
      SubmitOutcome.freePlayAccept 5 ∧
    (catState.placedThisTurn.map (fun p => p.tile.points)).sum = 5 := by
  refine ⟨by decide, by decide, by decide, by decide⟩

/-- Claim C6 (corrected): in free-play mode the dictionary-loading gate is
bypassed, but the word validation still runs: a placement all of whose
words pass the dictionary is accepted with the validator's bonus-aware
total score, and the raw sum of the placed tiles' face values is awarded
exactly when validation fails with the dictionary-word error as primary
error. -/
theorem freeplay_submit_behavior (dict : String → Bool) (s : GameState)
    (hplaced : s.placedThisTurn.length ≠ 0) :
    ((findWordsFromPlacement dict s.board
        (s.placedThisTurn.map (fun p => (⟨p.row, p.col⟩ : Pos)))
        s.isFirstMove).isValid = true →
      handleSubmitWordV2 GameMode.freeplay false dict s =
        (submitAccept s (findWordsFromPlacement dict s.board
            (s.placedThisTurn.map (fun p => (⟨p.row, p.col⟩ : Pos)))
            s.isFirstMove).totalScore,
         SubmitOutcome.accepted (findWordsFromPlacement dict s.board
            (s.placedThisTurn.map (fun p => (⟨p.row, p.col⟩ : Pos)))
            s.isFirstMove).totalScore)) ∧
    ((findWordsFromPlacement dict s.board
        (s.placedThisTurn.map (fun p => (⟨p.row, p.col⟩ : Pos)))
        s.isFirstMove).isValid = false →
      isInvalidWordError ((findWordsFromPlacement dict s.board
        (s.placedThisTurn.map (fun p => (⟨p.row, p.col⟩ : Pos)))
        s.isFirstMove).errors.headD "Invalid placement") = true →
      handleSubmitWordV2 GameMode.freeplay false dict s =
        (submitAccept s ((s.placedThisTurn.map (fun p => p.tile.points)).sum),
         SubmitOutcome.freePlayAccept
           ((s.placedThisTurn.map (fun p => p.tile.points)).sum))) := by
  constructor
  · intro hv
    simp only [handleSubmitWordV2]
    rw [if_neg (by simp), if_neg hplaced, if_neg (by rw [hv]; simp)]
  · intro hv herr
    simp only [handleSubmitWordV2]
    rw [if_neg (by simp), if_neg hplaced, if_pos hv,
      if_pos ⟨trivial, herr⟩]

theorem freeplay_submit_behavior_witness :
    catState.placedThisTurn.length ≠ 0 ∧
    (findWordsFromPlacement noCatDict catState.board
        (catState.placedThisTurn.map (fun p => (⟨p.row, p.col⟩ : Pos)))
        catState.isFirstMove).isValid = false ∧
    handleSubmitWordV2 GameMode.freeplay false noCatDict catState =
      (submitAccept catState
        ((catState.placedThisTurn.map (fun p => p.tile.points)).sum),
       SubmitOutcome.freePlayAccept
        ((catState.placedThisTurn.map (fun p => p.tile.points)).sum)) :=
  ⟨by decide, by decide,
   (freeplay_submit_behavior noCatDict catState (by decide)).2
     (by decide) (by decide)⟩

/-! ### Recall round-trip (claim C9) -/

theorem list_set_self {α : Type} (l : List α) (i : Nat) (h : i < l.length) :
    l.set i (l.get ⟨i, h⟩) = l := by
  apply List.ext_getElem
  · simp
  · intro n h1 h2
    by_cases hn : n = i
    · subst hn; simp
    · rw [List.getElem_set_ne (fun he => hn he.symm)]

theorem getD_set_self {α : Type} (l : List α) (i : Nat) (d : α)
    (h : i < l.length) : l.set i (l.getD i d) = l := by
  rw [List.getD_eq_getElem _ _ h]
  exact list_set_self l i h

theorem setCell_cellAt_self {b : Board} (hsh : boardShape b) {r c : Nat}
    (hr : r ≤ 14) (hc : c ≤ 14) : setCell b r c (cellAt b r c) = b := by
  have hr2 : r < b.length := by have := hsh.1; omega
  have hc2 : c < (b.getD r []).length := by have := getD_row_length hsh hr; omega
  unfold setCell cellAt
  rw [getD_set_self _ _ _ hc2, getD_set_self _ _ _ hr2]

theorem setCell_setCell (b : Board) (r c : Nat) (v w : BoardCell) :
    setCell (setCell b r c v) r c w = setCell b r c w := by
  unfold setCell
  by_cases hr : r < b.length
  · have h1 : (b.set r ((b.getD r []).set c v)).getD r [] =
        (b.getD r []).set c v := by
      rw [List.getD_eq_getElem _ _ (by simpa using hr)]
      exact List.getElem_set_self (by simpa using hr)
    rw [h1, List.set_set, List.set_set]
  · have h0 : ∀ x : List BoardCell, b.set r x = b :=
      fun x => List.set_eq_of_length_le (by omega)
    simp only [h0]

theorem setCell_comm {b : Board} {r1 c1 r2 c2 : Nat} (v1 v2 : BoardCell)
    (h : (r1, c1) ≠ (r2, c2)) :
    setCell (setCell b r1 c1 v1) r2 c2 v2 =
      setCell (setCell b r2 c2 v2) r1 c1 v1 := by
  by_cases hr : r1 = r2
  · subst hr
    have hc : c1 ≠ c2 := fun he => h (by rw [he])
    unfold setCell
    by_cases hlen : r1 < b.length
    · have h1 : (b.set r1 ((b.getD r1 []).set c1 v1)).getD r1 [] =
          (b.getD r1 []).set c1 v1 := by
        rw [List.getD_eq_getElem _ _ (by simpa using hlen)]
        exact List.getElem_set_self (by simpa using hlen)
      have h2 : (b.set r1 ((b.getD r1 []).set c2 v2)).getD r1 [] =
          (b.getD r1 []).set c2 v2 := by
        rw [List.getD_eq_getElem _ _ (by simpa using hlen)]
        exact List.getElem_set_self (by simpa using hlen)
      rw [h1, h2, List.set_set, List.set_set, List.set_comm _ _ _ hc]
    · have h0 : ∀ x : List BoardCell, b.set r1 x = b :=
        fun x => List.set_eq_of_length_le (by omega)
      simp only [h0]
  · unfold setCell
    have h1 : ∀ x : List BoardCell, (b.set r2 x).getD r1 [] = b.getD r1 [] := by
      intro x
      simp [List.getD, List.getElem?_set_ne (fun he => hr he.symm)]
    have h2 : ∀ x : List BoardCell, (b.set r1 x).getD r2 [] = b.getD r2 [] := by
      intro x
      simp [List.getD, List.getElem?_set_ne hr]
    rw [h1, h2, List.set_comm _ _ _ hr]

theorem cellAt_clear_ne :
    ∀ (ps : List PlacedTile) (b : Board) {r c : Nat},
      (∀ p ∈ ps, (p.row, p.col) ≠ (r, c)) →
      cellAt (clearPlacedCells b ps) r c = cellAt b r c := by
  intro ps
  induction ps with
  | nil => intro b r c _; rfl
  | cons q qs ih =>
    intro b r c h
    show cellAt (clearPlacedCells (setCell b q.row q.col
      { cellAt b q.row q.col with tile := none, isNewlyPlaced := false }) qs) r c =
      cellAt b r c
    rw [ih _ (fun p hp => h p (List.mem_cons_of_mem _ hp)),
      cellAt_setCell_ne _ _ _ (fun he => h q (List.mem_cons_self q qs) he.symm)]

theorem clear_setCell_comm :
    ∀ (ps : List PlacedTile) (b : Board) {r c : Nat} (v : BoardCell),
      (∀ p ∈ ps, (p.row, p.col) ≠ (r, c)) →
      clearPlacedCells (setCell b r c v) ps =
        setCell (clearPlacedCells b ps) r c v := by
  intro ps
  induction ps with
  | nil => intro b r c v _; rfl
  | cons q qs ih =>
    intro b r c v h
    have hq := h q (List.mem_cons_self q qs)
    show clearPlacedCells (setCell (setCell b r c v) q.row q.col
      { cellAt (setCell b r c v) q.row q.col with
          tile := none, isNewlyPlaced := false }) qs =
      setCell (clearPlacedCells (setCell b q.row q.col
        { cellAt b q.row q.col with tile := none, isNewlyPlaced := false }) qs)
        r c v
    rw [cellAt_setCell_ne _ _ _ hq, setCell_comm _ _ (fun he => hq he.symm),
      ih _ _ (fun p hp => h p (List.mem_cons_of_mem _ hp))]

/-- A clean resting board: empty cells do not carry the newly-placed flag. -/
def cleanBoard (b : Board) : Prop :=
  ∀ r < 15, ∀ c < 15, (cellAt b r c).tile = none →
    (cellAt b r c).isNewlyPlaced = false

/-- One drag-and-drop of a rack tile, with the letter chosen for a blank. -/
structure PlaceOp where
  tile : Tile
  letter : String
  row : Nat
  col : Nat

/-- Run a sequence of drops. -/
def applyPlacements (s : GameState) : List PlaceOp → GameState
  | [] => s
  | op :: rest => applyPlacements (placeWithLetter s op.tile op.letter op.row op.col) rest

/-- Each drop drags a tile of the current rack onto a board cell. -/
def validOps : GameState → List PlaceOp → Prop
  | _, [] => True
  | s, op :: rest => op.tile ∈ (getPlayer s s.currentPlayerIndex).rack ∧
      op.row ≤ 14 ∧ op.col ≤ 14 ∧
      validOps (placeWithLetter s op.tile op.letter op.row op.col) rest

theorem getPlayer_set_players (s2 : GameState) (ps : Player × Player) (i : Nat)
    (p : Player) (h : s2.players = setPlayer ps i p)
    (hidx : s2.currentPlayerIndex = i) :
    getPlayer s2 s2.currentPlayerIndex = p := by
  unfold getPlayer
  rw [hidx, h]
  unfold setPlayer
  by_cases hi : i = 0 <;> simp [hi]

/-- Mid-placement invariant tying the working state `s` back to the
pre-placement state `s0`. -/
structure PlaceInv (s0 s : GameState) : Prop where
  shape : boardShape s.board
  placedPos : (s.placedThisTurn.map (fun p => (p.row, p.col))).Nodup
  placedCell : ∀ p ∈ s.placedThisTurn, p.row ≤ 14 ∧ p.col ≤ 14 ∧
    (cellAt s.board p.row p.col).tile = some p.tile
  idxEq : s.currentPlayerIndex = s0.currentPlayerIndex
  boardEq : clearPlacedCells s.board s.placedThisTurn = s0.board
  rackEq : (↑(getPlayer s s.currentPlayerIndex).rack : Multiset Tile) +
    ↑(s.placedThisTurn.map (fun p => resetBlank p.tile)) =
    ↑(getPlayer s0 s0.currentPlayerIndex).rack
  rackNodup : ((getPlayer s s.currentPlayerIndex).rack.map Tile.id).Nodup
  blanks : ∀ t ∈ (getPlayer s s.currentPlayerIndex).rack,
    t.isBlank = true → t.letter = ""
  otherEq : if s0.currentPlayerIndex = 0 then s.players.2 = s0.players.2
    else s.players.1 = s0.players.1
  metaEq : (getPlayer s s.currentPlayerIndex).id =
      (getPlayer s0 s0.currentPlayerIndex).id ∧
    (getPlayer s s.currentPlayerIndex).name =
      (getPlayer s0 s0.currentPlayerIndex).name ∧
    (getPlayer s s.currentPlayerIndex).score =
      (getPlayer s0 s0.currentPlayerIndex).score
  bagEq : s.tileBag = s0.tileBag
  turnEq : s.turnNumber = s0.turnNumber
  firstEq : s.isFirstMove = s0.isFirstMove
  overEq : s.gameOver = s0.gameOver
  winEq : s.winner = s0.winner

theorem placeInv_init (s0 : GameState) (hplaced : s0.placedThisTurn = [])
    (hsh : boardShape s0.board)
    (hnd : ((getPlayer s0 s0.currentPlayerIndex).rack.map Tile.id).Nodup)
    (hbl : ∀ t ∈ (getPlayer s0 s0.currentPlayerIndex).rack,
      t.isBlank = true → t.letter = "") :
    PlaceInv s0 s0 := by
  refine ⟨hsh, ?_, ?_, rfl, ?_, ?_, hnd, hbl, ?_, ⟨rfl, rfl, rfl⟩,
    rfl, rfl, rfl, rfl, rfl⟩
  · rw [hplaced]
    exact List.nodup_nil
  · intro p hp
    rw [hplaced] at hp
    exact absurd hp (List.not_mem_nil p)
  · rw [hplaced]
    rfl
  · rw [hplaced]
    simp
  · by_cases hi : s0.currentPlayerIndex = 0 <;> simp [hi]

theorem placeInv_step {s0 s : GameState} (inv : PlaceInv s0 s)
    (hclean : cleanBoard s0.board) {t : Tile} (letter : String) {row col : Nat}
    (hrow : row ≤ 14) (hcol : col ≤ 14)
    (ht : t ∈ (getPlayer s s.currentPlayerIndex).rack) :
    PlaceInv s0 (placeWithLetter s t letter row col) := by
  by_cases hocc : (cellAt s.board row col).tile.isSome
  · unfold placeWithLetter
    rw [if_pos hocc]
    exact inv
  · have hold : (cellAt s.board row col).tile = none := by
      cases hx : (cellAt s.board row col).tile with
      | none => rfl
      | some w => exact absurd (by simp [hx]) hocc
    have hnotin : ∀ p ∈ s.placedThisTurn, (p.row, p.col) ≠ (row, col) := by
      intro p hp he
      obtain ⟨_, _, hcell⟩ := inv.placedCell p hp
      have hr2 : p.row = row := congrArg Prod.fst he
      have hc2 : p.col = col := congrArg Prod.snd he
      rw [hr2, hc2, hold] at hcell
      simp at hcell
    have hreset : resetBlank (if t.isBlank && t.letter == ""
        then { t with letter := letter } else t) = t := by
      obtain ⟨tid, tl, tp, tb⟩ := t
      cases tb with
      | true =>
        have hlet : tl = "" := inv.blanks _ ht rfl
        subst hlet
        simp [resetBlank]
      | false =>
        simp [resetBlank]
    have hperm := rack_filter_perm _ t ht inv.rackNodup
    have hmulti : (↑(getPlayer s s.currentPlayerIndex).rack : Multiset Tile) =
        {t} + ↑((getPlayer s s.currentPlayerIndex).rack.filter
          (fun x => x.id ≠ t.id)) := by
      rw [Multiset.coe_eq_coe.mpr hperm]
      simp [Multiset.singleton_add]
    have hsh0 : boardShape s0.board := by
      rw [← inv.boardEq]
      exact (clearPlacedCells_spec s.placedThisTurn s.board inv.shape
        inv.placedPos inv.placedCell).2
    have hcell0 : cellAt s0.board row col = cellAt s.board row col := by
      rw [← inv.boardEq]
      exact cellAt_clear_ne s.placedThisTurn s.board hnotin
    have htile0 : (cellAt s0.board row col).tile = none := by
      rw [hcell0]
      exact hold
    have hflag0 : (cellAt s0.board row col).isNewlyPlaced = false :=
      hclean row (by omega) col (by omega) htile0
    have hwid : ({ cellAt s0.board row col with
        tile := none, isNewlyPlaced := false } : BoardCell) =
        cellAt s0.board row col := by
      rw [← htile0, ← hflag0]
    unfold placeWithLetter
    rw [if_neg hocc]
    show PlaceInv s0
      { s with
        board := setCell s.board row col
          { cellAt s.board row col with
              tile := some (if t.isBlank && t.letter == ""
                then { t with letter := letter } else t),
              isNewlyPlaced := true },
        players := setPlayer s.players s.currentPlayerIndex
          { getPlayer s s.currentPlayerIndex with
              rack := (getPlayer s s.currentPlayerIndex).rack.filter
                (fun x => x.id ≠ t.id) },
        placedThisTurn := s.placedThisTurn ++
          [⟨row, col, (if t.isBlank && t.letter == ""
            then { t with letter := letter } else t)⟩] }
    generalize hu : (if t.isBlank && t.letter == ""
      then { t with letter := letter } else t) = u
    rw [hu] at hreset
    have hg := getPlayer_set_players
      { s with
        board := setCell s.board row col
          { cellAt s.board row col with
              tile := some u, isNewlyPlaced := true },
        players := setPlayer s.players s.currentPlayerIndex
          { getPlayer s s.currentPlayerIndex with
              rack := (getPlayer s s.currentPlayerIndex).rack.filter
                (fun x => x.id ≠ t.id) },
        placedThisTurn := s.placedThisTurn ++ [⟨row, col, u⟩] }
      s.players s.currentPlayerIndex _ rfl rfl
    refine ⟨?_, ?_, ?_, inv.idxEq, ?_, ?_, ?_, ?_, ?_, ?_,
      inv.bagEq, inv.turnEq, inv.firstEq, inv.overEq, inv.winEq⟩
    · exact boardShape_setCell inv.shape hrow hcol _
    · show ((s.placedThisTurn ++ [(⟨row, col, u⟩ : PlacedTile)]).map
        (fun p => (p.row, p.col))).Nodup
      rw [List.map_append, List.nodup_append]
      refine ⟨inv.placedPos, by simp, ?_⟩
      intro a ha hb2
      simp only [List.map_cons, List.map_nil, List.mem_singleton] at hb2
      obtain ⟨p, hp, hpa⟩ := List.mem_map.mp ha
      exact hnotin p hp (by exact hpa.trans hb2)
    · intro p hp
      show p.row ≤ 14 ∧ p.col ≤ 14 ∧
        (cellAt (setCell s.board row col
          { cellAt s.board row col with tile := some u, isNewlyPlaced := true })
          p.row p.col).tile = some p.tile
      rcases List.mem_append.mp hp with hmem | hnew
      · obtain ⟨h1, h2, h3⟩ := inv.placedCell p hmem
        refine ⟨h1, h2, ?_⟩
        rw [cellAt_setCell_ne _ _ _ (hnotin p hmem)]
        exact h3
      · have hp2 : p = ⟨row, col, u⟩ := by simpa using hnew
        subst hp2
        refine ⟨hrow, hcol, ?_⟩
        rw [cellAt_setCell_self inv.shape hrow hcol]
    · show clearPlacedCells (setCell s.board row col
        { cellAt s.board row col with tile := some u, isNewlyPlaced := true })
        (s.placedThisTurn ++ [⟨row, col, u⟩]) = s0.board
      have hsplit : ∀ b2 : Board,
          clearPlacedCells b2 (s.placedThisTurn ++ [(⟨row, col, u⟩ : PlacedTile)]) =
          setCell (clearPlacedCells b2 s.placedThisTurn) row col
            { cellAt (clearPlacedCells b2 s.placedThisTurn) row col with
                tile := none, isNewlyPlaced := false } := by
        intro b2
        unfold clearPlacedCells
        rw [List.foldl_append]
        rfl
      rw [hsplit, clear_setCell_comm _ _ _ hnotin, inv.boardEq,
        cellAt_setCell_self hsh0 hrow hcol, setCell_setCell]
      dsimp only
      rw [← hcell0, hwid]
      exact setCell_cellAt_self hsh0 hrow hcol
    · rw [hg]
      dsimp only
      show (↑((getPlayer s s.currentPlayerIndex).rack.filter
          (fun x => x.id ≠ t.id)) : Multiset Tile) +
        ↑((s.placedThisTurn ++ [(⟨row, col, u⟩ : PlacedTile)]).map
          (fun p => resetBlank p.tile)) =
        ↑(getPlayer s0 s0.currentPlayerIndex).rack
      rw [List.map_append]
      simp only [List.map_cons, List.map_nil]
      rw [show resetBlank (⟨row, col, u⟩ : PlacedTile).tile = t from hreset]
      rw [← Multiset.coe_add, ← inv.rackEq, hmulti, Multiset.coe_singleton]
      abel
    · rw [hg]
      dsimp only
      exact inv.rackNodup.sublist (List.Sublist.map Tile.id (List.filter_sublist _))
    · rw [hg]
      dsimp only
      intro t2 ht2 hb2
      exact inv.blanks t2 (List.mem_of_mem_filter ht2) hb2
    · have hidx := inv.idxEq
      have hother := inv.otherEq
      by_cases hi : s0.currentPlayerIndex = 0
      · rw [if_pos hi] at hother ⊢
        show (setPlayer s.players s.currentPlayerIndex _).2 = s0.players.2
        unfold setPlayer
        rw [hidx, if_pos hi]
        exact hother
      · rw [if_neg hi] at hother ⊢
        show (setPlayer s.players s.currentPlayerIndex _).1 = s0.players.1
        unfold setPlayer
        rw [hidx, if_neg hi]
        exact hother
    · rw [hg]
      dsimp only
      exact inv.metaEq

theorem placeInv_fold {s0 : GameState} (hclean : cleanBoard s0.board) :
    ∀ (ops : List PlaceOp) (s : GameState), PlaceInv s0 s → validOps s ops →
      PlaceInv s0 (applyPlacements s ops) := by
  intro ops
  induction ops with
  | nil => intro s inv _; exact inv
  | cons op rest ih =>
    intro s inv hv
    obtain ⟨hmem, hr, hc, hrest⟩ := hv
    exact ih _ (placeInv_step inv hclean op.letter hr hc hmem) hrest

/-- Claim C9: recall round-trip. From a resting state (nothing placed this
turn, clean 15×15 board, distinct rack tile ids, blanks in the rack carrying
no letter), dropping any valid sequence of rack tiles onto the board and
then invoking the part_002 recall restores the board exactly, restores the
current player\u2019s rack as a multiset (blank letters reset on the way back),
clears the placed-this-turn list, and leaves the other player, the bag, the
turn counter, the flags and the winner unchanged. -/
theorem recall_roundtrip (s0 : GameState) (ops : List PlaceOp)
    (hplaced : s0.placedThisTurn = [])
    (hsh : boardShape s0.board)
    (hclean : cleanBoard s0.board)
    (hnd : ((getPlayer s0 s0.currentPlayerIndex).rack.map Tile.id).Nodup)
    (hbl : ∀ t ∈ (getPlayer s0 s0.currentPlayerIndex).rack,
      t.isBlank = true → t.letter = "")
    (hops : validOps s0 ops) :
    (recallTilesV2 (applyPlacements s0 ops)).board = s0.board ∧
    (↑(getPlayer (recallTilesV2 (applyPlacements s0 ops))
        (recallTilesV2 (applyPlacements s0 ops)).currentPlayerIndex).rack :
        Multiset Tile) =
      ↑(getPlayer s0 s0.currentPlayerIndex).rack ∧
    (recallTilesV2 (applyPlacements s0 ops)).placedThisTurn = [] ∧
    (recallTilesV2 (applyPlacements s0 ops)).currentPlayerIndex =
      s0.currentPlayerIndex ∧
    (recallTilesV2 (applyPlacements s0 ops)).tileBag = s0.tileBag ∧
    (recallTilesV2 (applyPlacements s0 ops)).turnNumber = s0.turnNumber ∧
    (recallTilesV2 (applyPlacements s0 ops)).isFirstMove = s0.isFirstMove ∧
    (recallTilesV2 (applyPlacements s0 ops)).gameOver = s0.gameOver ∧
    (recallTilesV2 (applyPlacements s0 ops)).winner = s0.winner ∧
    (if s0.currentPlayerIndex = 0
      then (recallTilesV2 (applyPlacements s0 ops)).players.2 = s0.players.2
      else (recallTilesV2 (applyPlacements s0 ops)).players.1 = s0.players.1) ∧
    (getPlayer (recallTilesV2 (applyPlacements s0 ops))
        (recallTilesV2 (applyPlacements s0 ops)).currentPlayerIndex).score =
      (getPlayer s0 s0.currentPlayerIndex).score := by
  have inv := placeInv_fold hclean ops s0 (placeInv_init s0 hplaced hsh hnd hbl)
    hops
  refine ⟨inv.boardEq, ?_, rfl, inv.idxEq, inv.bagEq, inv.turnEq, inv.firstEq,
    inv.overEq, inv.winEq, ?_, ?_⟩
  · rw [getPlayer_set_players (recallTilesV2 (applyPlacements s0 ops))
      (applyPlacements s0 ops).players
      (applyPlacements s0 ops).currentPlayerIndex _ rfl rfl]
    dsimp only
    show (↑((getPlayer (applyPlacements s0 ops)
        (applyPlacements s0 ops).currentPlayerIndex).rack ++
        (applyPlacements s0 ops).placedThisTurn.map
          (fun p => resetBlank p.tile)) : Multiset Tile) =
      ↑(getPlayer s0 s0.currentPlayerIndex).rack
    rw [← Multiset.coe_add]
    exact inv.rackEq
  · have hother := inv.otherEq
    by_cases hi : s0.currentPlayerIndex = 0
    · rw [if_pos hi] at hother ⊢
      show (setPlayer (applyPlacements s0 ops).players
        (applyPlacements s0 ops).currentPlayerIndex _).2 = s0.players.2
      unfold setPlayer
      rw [inv.idxEq, if_pos hi]
      exact hother
    · rw [if_neg hi] at hother ⊢
      show (setPlayer (applyPlacements s0 ops).players
        (applyPlacements s0 ops).currentPlayerIndex _).1 = s0.players.1
      unfold setPlayer
      rw [inv.idxEq, if_neg hi]
      exact hother
  · rw [getPlayer_set_players (recallTilesV2 (applyPlacements s0 ops))
      (applyPlacements s0 ops).players
      (applyPlacements s0 ops).currentPlayerIndex _ rfl rfl]
    dsimp only
    exact inv.metaEq.2.2

theorem recall_roundtrip_witness :
    validOps (initializeGame [⟨"A", 1, 2, false⟩] [] "" "")
      [⟨⟨0, "A", 1, false⟩, "", 7, 7⟩] ∧
    (recallTilesV2 (applyPlacements (initializeGame [⟨"A", 1, 2, false⟩] [] "" "")
      [⟨⟨0, "A", 1, false⟩, "", 7, 7⟩])).board =
      (initializeGame [⟨"A", 1, 2, false⟩] [] "" "").board :=
  ⟨⟨by decide, by decide, by decide, trivial⟩,
   (recall_roundtrip (initializeGame [⟨"A", 1, 2, false⟩] [] "" "")
     [⟨⟨0, "A", 1, false⟩, "", 7, 7⟩] (by decide)
     (by unfold boardShape; decide) (by unfold cleanBoard; decide)
     (by decide) (by decide) ⟨by decide, by decide, by decide, trivial⟩).1⟩

end Scramble